import Mathlib

/-!
Verification of the reduction module (`jax/_src/numpy/reductions.py`).

The embedding models array element values as an "ideal float" domain `Val`:
exact rationals extended with `posInf`, `negInf` and `nan`.  This captures the
special-value semantics (NaN propagation, infinite identities, division by
zero) that the claims are about, while abstracting from binary rounding.
Arrays are rectangular N-dimensional containers in row-major layout.  Dtype
bookkeeping (integer promotion, bool round-trips) is modelled separately with
an explicit `DType` tag where a claim depends on it; fallible code returns
`Except String`.
-/

namespace JaxRed

/-- Ideal floating value: exact rational, plus the IEEE special values. -/
inductive Val where
  | nan : Val
  | posInf : Val
  | negInf : Val
  | num : Rat → Val
deriving DecidableEq, Repr

instance : Inhabited Val := ⟨Val.num 0⟩

/-- NaN test (`lax._isnan`). -/
def isnanV : Val → Bool
  | .nan => true
  | _ => false

/-- Addition (`lax.add`) with IEEE special-value behaviour. -/
def addV : Val → Val → Val
  | .nan, _ => .nan
  | _, .nan => .nan
  | .posInf, .negInf => .nan
  | .negInf, .posInf => .nan
  | .posInf, _ => .posInf
  | _, .posInf => .posInf
  | .negInf, _ => .negInf
  | _, .negInf => .negInf
  | .num a, .num b => .num (a + b)

/-- Subtraction (`lax.sub`). -/
def subV : Val → Val → Val
  | .nan, _ => .nan
  | _, .nan => .nan
  | .posInf, .posInf => .nan
  | .negInf, .negInf => .nan
  | .posInf, _ => .posInf
  | .negInf, _ => .negInf
  | _, .posInf => .negInf
  | _, .negInf => .posInf
  | .num a, .num b => .num (a - b)

/-- Multiplication (`lax.mul`) with IEEE special-value behaviour. -/
def mulV : Val → Val → Val
  | .nan, _ => .nan
  | _, .nan => .nan
  | .posInf, .posInf => .posInf
  | .posInf, .negInf => .negInf
  | .negInf, .posInf => .negInf
  | .negInf, .negInf => .posInf
  | .posInf, .num b => if 0 < b then .posInf else if b < 0 then .negInf else .nan
  | .num a, .posInf => if 0 < a then .posInf else if a < 0 then .negInf else .nan
  | .negInf, .num b => if 0 < b then .negInf else if b < 0 then .posInf else .nan
  | .num a, .negInf => if 0 < a then .negInf else if a < 0 then .posInf else .nan
  | .num a, .num b => .num (a * b)

/-- Division (`lax.div`) with IEEE special-value behaviour. -/
def divV : Val → Val → Val
  | .nan, _ => .nan
  | _, .nan => .nan
  | .posInf, .posInf => .nan
  | .posInf, .negInf => .nan
  | .negInf, .posInf => .nan
  | .negInf, .negInf => .nan
  | .posInf, .num b => if b < 0 then .negInf else .posInf
  | .negInf, .num b => if b < 0 then .posInf else .negInf
  | .num _, .posInf => .num 0
  | .num _, .negInf => .num 0
  | .num a, .num b =>
    if b = 0 then (if 0 < a then .posInf else if a < 0 then .negInf else .nan)
    else .num (a / b)

/-- Maximum (`lax.max`); propagates NaN like the backend does. -/
def maxV : Val → Val → Val
  | .nan, _ => .nan
  | _, .nan => .nan
  | .posInf, _ => .posInf
  | _, .posInf => .posInf
  | .negInf, b => b
  | a, .negInf => a
  | .num a, .num b => .num (max a b)

/-- Minimum (`lax.min`); propagates NaN like the backend does. -/
def minV : Val → Val → Val
  | .nan, _ => .nan
  | _, .nan => .nan
  | .negInf, _ => .negInf
  | _, .negInf => .negInf
  | .posInf, b => b
  | a, .posInf => a
  | .num a, .num b => .num (min a b)

/-- Squaring (`lax.square`). -/
def squareV (v : Val) : Val := mulV v v

/-- Strict comparison against zero (`normalizer > 0`); false on NaN. -/
def gtZeroV : Val → Bool
  | .posInf => true
  | .num q => decide (0 < q)
  | _ => false

/-- Non-strict comparison against zero (`lax.le(normalizer, 0)`); false on NaN. -/
def leZeroV : Val → Bool
  | .negInf => true
  | .num q => decide (q ≤ 0)
  | _ => false

/-! ### Row-major index machinery -/

/-- Row-major flattening of a multi-index against a shape. -/
def flatIndex : List Nat → List Nat → Nat
  | [], _ => 0
  | _ :: _, [] => 0
  | _ :: ds, i :: is => i * ds.prod + flatIndex ds is

/-- All valid multi-indices of a shape, in row-major order. -/
def allIndices : List Nat → List (List Nat)
  | [] => [[]]
  | d :: ds => (List.range d).flatMap (fun i => (allIndices ds).map (fun is => i :: is))

theorem length_allIndices (s : List Nat) : (allIndices s).length = s.prod := by
  induction s with
  | nil => rfl
  | cons d ds ih =>
    have hfun : (List.length ∘ fun i : Nat => List.map (fun is => i :: is) (allIndices ds)) =
        fun _ : Nat => ds.prod := by
      funext i; simp [ih]
    rw [allIndices, List.length_flatMap, hfun, List.map_const', List.length_range,
      List.sum_replicate, smul_eq_mul, List.prod_cons]

theorem range_flatMap_add (d P : Nat) :
    (List.range d).flatMap (fun i => (List.range P).map (fun j => i * P + j)) =
      List.range (d * P) := by
  induction d with
  | zero => simp
  | succ d ih =>
    rw [List.range_succ, List.flatMap_append, ih, Nat.succ_mul, List.range_add]
    simp

theorem map_flatIndex_allIndices (s : List Nat) :
    (allIndices s).map (flatIndex s) = List.range s.prod := by
  induction s with
  | nil => rfl
  | cons d ds ih =>
    simp only [allIndices, List.map_flatMap, List.map_map]
    have h : ∀ i : Nat,
        (allIndices ds).map (flatIndex (d :: ds) ∘ fun is => i :: is) =
          (List.range ds.prod).map (fun j => i * ds.prod + j) := by
      intro i
      have : (flatIndex (d :: ds) ∘ fun is => i :: is) =
          (fun j => i * ds.prod + j) ∘ flatIndex ds := by
        funext is; simp [flatIndex]
      rw [this, ← List.map_map, ih]
    calc (List.range d).flatMap
          (fun i => (allIndices ds).map (flatIndex (d :: ds) ∘ fun is => i :: is))
        = (List.range d).flatMap
            (fun i => (List.range ds.prod).map (fun j => i * ds.prod + j)) := by
          exact List.flatMap_congr (fun i _ => h i)
      _ = List.range (d * ds.prod) := range_flatMap_add d ds.prod
      _ = List.range ((d :: ds).prod) := by rw [List.prod_cons]

theorem flatIndex_getElem (s : List Nat) (j : Nat) (hj : j < (allIndices s).length) :
    flatIndex s ((allIndices s)[j]) = j := by
  have h := map_flatIndex_allIndices s
  have h1 : ((allIndices s).map (flatIndex s))[j]? = (List.range s.prod)[j]? := by
    rw [h]
  rw [List.getElem?_map, List.getElem?_eq_getElem hj,
    List.getElem?_range (by rw [← length_allIndices s]; exact hj)] at h1
  rw [show Option.map (flatIndex s) (some (allIndices s)[j]) =
    some (flatIndex s (allIndices s)[j]) from rfl] at h1
  exact Option.some.inj h1

theorem flatIndex_of_mem {s : List Nat} {idx : List Nat} (h : idx ∈ allIndices s) :
    ∃ j, ∃ hj : j < (allIndices s).length,
      (allIndices s)[j] = idx ∧ flatIndex s idx = j := by
  obtain ⟨j, hj, hget⟩ := List.getElem_of_mem h
  exact ⟨j, hj, hget, by rw [← hget]; exact flatIndex_getElem s j hj⟩

/-! ### N-dimensional arrays -/

/-- N-dimensional rectangular array in row-major layout. -/
structure NDArray (α : Type) where
  shape : List Nat
  data : List α
deriving DecidableEq, Repr

/-- Build an array of a given shape from an index function. -/
def ofFun {α : Type} (s : List Nat) (f : List Nat → α) : NDArray α :=
  ⟨s, (allIndices s).map f⟩

/-- Element lookup by multi-index. -/
def NDArray.get {α : Type} [Inhabited α] (x : NDArray α) (idx : List Nat) : α :=
  x.data.getD (flatIndex x.shape idx) default

/-- Rank-0 (scalar) array. -/
def scalarA {α : Type} (v : α) : NDArray α := ⟨[], [v]⟩

/-- Elementwise map, shape preserved. -/
def mapA {α β : Type} (f : α → β) (x : NDArray α) : NDArray β :=
  ⟨x.shape, x.data.map f⟩

theorem get_ofFun {α : Type} [Inhabited α] (s : List Nat) (f : List Nat → α)
    {idx : List Nat} (h : idx ∈ allIndices s) : (ofFun s f).get idx = f idx := by
  obtain ⟨j, hj, hget, hflat⟩ := flatIndex_of_mem h
  simp only [ofFun, NDArray.get, hflat]
  rw [List.getD_eq_getElem?_getD, List.getElem?_map]
  rw [List.getElem?_eq_getElem hj, hget]
  rfl

theorem get_mapA {α β : Type} [Inhabited α] [Inhabited β] (f : α → β) (x : NDArray α)
    (idx : List Nat) (h : flatIndex x.shape idx < x.data.length) :
    (mapA f x).get idx = f (x.get idx) := by
  simp only [mapA, NDArray.get]
  rw [List.getD_eq_getElem?_getD, List.getElem?_map, List.getD_eq_getElem?_getD]
  rw [List.getElem?_eq_getElem h]
  rfl

/-! ### Broadcasting and elementwise select -/

/-- Right-aligned shape broadcast (size-1 dims stretch).  Incompatible non-1
dims raise in the source before any claim-relevant path; the total model keeps
the left dimension there. -/
def broadcastShapes (s1 s2 : List Nat) : List Nat :=
  let n := max s1.length s2.length
  List.zipWith (fun a b => if a = 1 then b else a)
    (List.replicate (n - s1.length) 1 ++ s1)
    (List.replicate (n - s2.length) 1 ++ s2)

/-- Align a multi-index of a (possibly larger) broadcast shape to an array
shape: drop extra leading coordinates, clamp stretched size-1 dims to 0. -/
def alignIdx (s idx : List Nat) : List Nat :=
  List.zipWith (fun d i => if d = 1 then 0 else i) s (idx.drop (idx.length - s.length))

/-- Broadcast-aware element lookup. -/
def NDArray.bget {α : Type} [Inhabited α] (x : NDArray α) (idx : List Nat) : α :=
  x.get (alignIdx x.shape idx)

/-- Elementwise select with broadcasting (`jax.numpy.util._where`). -/
def _where {α : Type} [Inhabited α] (c : NDArray Bool) (x y : NDArray α) : NDArray α :=
  let s := broadcastShapes c.shape (broadcastShapes x.shape y.shape)
  ofFun s (fun idx => if c.bget idx then x.bget idx else y.bget idx)

/-! ### Axis-set reduction (`lax.reduce`) -/

/-- Shape with the reduced positions removed. -/
def removeDims (s : List Nat) (dims : List Nat) : List Nat :=
  (s.enum.filter (fun p => decide (¬ p.1 ∈ dims))).map (fun p => p.2)

/-- Shape restricted to the reduced positions. -/
def selectDims (s : List Nat) (dims : List Nat) : List Nat :=
  (s.enum.filter (fun p => decide (p.1 ∈ dims))).map (fun p => p.2)

/-- Interleave an outer (kept-position) and inner (reduced-position)
multi-index into a full multi-index of rank `n`, starting at position `pos`. -/
def mergeFrom (dims : List Nat) : Nat → Nat → List Nat → List Nat → List Nat
  | _, 0, _, _ => []
  | pos, n + 1, outer, inner =>
    if pos ∈ dims then
      inner.headD 0 :: mergeFrom dims (pos + 1) n outer (inner.drop 1)
    else
      outer.headD 0 :: mergeFrom dims (pos + 1) n (outer.drop 1) inner

def mergeIdx (dims : List Nat) (n : Nat) (outer inner : List Nat) : List Nat :=
  mergeFrom dims 0 n outer inner

/-- Backend reduction over an axis set (`lax.reduce`): every output cell folds
the operator from the init value over the reduced positions of its slice. -/
def reduceArr {α : Type} [Inhabited α] (x : NDArray α) (init : α) (op : α → α → α)
    (dims : List Nat) : NDArray α :=
  ofFun (removeDims x.shape dims) (fun oidx =>
    (allIndices (selectDims x.shape dims)).foldl
      (fun acc ridx => op acc (x.get (mergeIdx dims x.shape.length oidx ridx))) init)

/-- Walk the output positions of `lax.expand_dims`: emit 1 at inserted
positions and stream the input dims elsewhere. -/
def insertOnesFrom (dims : List Nat) : Nat → Nat → List Nat → List Nat
  | _, 0, _ => []
  | pos, n + 1, rest =>
    if pos ∈ dims then 1 :: insertOnesFrom dims (pos + 1) n rest
    else rest.headD 1 :: insertOnesFrom dims (pos + 1) n (rest.drop 1)

/-- Shape with size-1 dims inserted at the given positions
(`lax.expand_dims`); row-major data is unchanged. -/
def insertOnes (s : List Nat) (dims : List Nat) : List Nat :=
  insertOnesFrom dims 0 (s.length + dims.length) s

def expandDims {α : Type} (x : NDArray α) (dims : List Nat) : NDArray α :=
  ⟨insertOnes x.shape dims, x.data⟩

/-! ### The generic reduction core (`_reduction`) -/

def axisOutOfRangeMsg : String := "axis is out of bounds for array"

def duplicateAxisMsg : String := "duplicate value in axis"

def noIdentityWhereMsg (name : String) : String :=
  "reduction operation " ++ name ++
    " does not have an identity, so to use a where mask one has to specify initial"

def zeroSizeMsg (name : String) : String :=
  "zero-size array to reduction operation " ++ name ++ " which has no identity"

def nonScalarInitialMsg : String := "initial value must be a scalar. Got array of shape"

/-- `jax._src.util.canonicalize_axis`: wrap a possibly negative axis, error
when out of range. -/
def canonicalizeAxis (x : Int) (rank : Nat) : Except String Nat :=
  if 0 ≤ x ∧ x < (rank : Int) then .ok x.toNat
  else if x < 0 ∧ -(rank : Int) ≤ x then .ok (x + (rank : Int)).toNat
  else .error axisOutOfRangeMsg

/-- Canonicalize a list of axes left to right, propagating the first error. -/
def canonListAxes (rank : Nat) : List Int → Except String (List Nat)
  | [] => .ok []
  | x :: xs =>
    match canonicalizeAxis x rank, canonListAxes rank xs with
    | .ok d, .ok ds => .ok (d :: ds)
    | .error e, _ => .error e
    | .ok _, .error e => .error e

/-- `_reduction_dims` (positional axes only; named axes are out of the model):
`none` means every axis, otherwise canonicalize and reject duplicates. -/
def _reduction_dims (rank : Nat) (axis : Option (List Int)) : Except String (List Nat) :=
  match axis with
  | none => .ok (List.range rank)
  | some ax =>
    match canonListAxes rank ax with
    | .error e => .error e
    | .ok canon =>
      if canon.dedup.length ≠ canon.length then .error duplicateAxisMsg
      else .ok canon

/-- The generic reduction engine `_reduction`, over an arbitrary element type
(instantiated at `Val` for sum/prod/max/min and at `Bool` for all/any).
Dtype resolution/promotion and the f16 upcast act on the dtype tag only and
are modelled separately; `preproc` casts are identities over the fixed
element domain.  Mirrors the source step for step: the no-identity-with-mask
check, axis canonicalization, the zero-size check, masking with the true
identity `init_val`, the backend reduce seeded with `init_val`, post-hoc
combination of a scalar `initial`, and `keepdims` re-expansion. -/
def _reduction {α : Type} [Inhabited α] (a : NDArray α) (name : String)
    (op : α → α → α) (init_val : α) (has_identity : Bool)
    (axis : Option (List Int)) (keepdims : Bool)
    (initial : Option (NDArray α)) (where_ : Option (NDArray Bool)) :
    Except String (NDArray α) :=
  if initial.isNone && !has_identity && where_.isSome then
    .error (noIdentityWhereMsg name)
  else
    match _reduction_dims a.shape.length axis with
    | .error e => .error e
    | .ok dims =>
      if initial.isNone && !has_identity &&
          !(dims.all (fun d => decide (1 ≤ a.shape.getD d 0))) then
        .error (zeroSizeMsg name)
      else
        let a1 := match where_ with
          | some m => _where m a (scalarA init_val)
          | none => a
        let result := reduceArr a1 init_val op dims
        match initial with
        | some ini =>
          if ini.shape = [] then
            .ok (if keepdims then expandDims (mapA (op (ini.get [])) result) dims
                 else mapA (op (ini.get [])) result)
          else .error nonScalarInitialMsg
        | none => .ok (if keepdims then expandDims result dims else result)

/-- `_reduce_sum`: add with identity 0. -/
def _reduce_sum (a : NDArray Val) (axis : Option (List Int)) (keepdims : Bool)
    (initial : Option (NDArray Val)) (where_ : Option (NDArray Bool)) :
    Except String (NDArray Val) :=
  _reduction a "sum" addV (Val.num 0) true axis keepdims initial where_

/-- `_reduce_prod`: mul with identity 1. -/
def _reduce_prod (a : NDArray Val) (axis : Option (List Int)) (keepdims : Bool)
    (initial : Option (NDArray Val)) (where_ : Option (NDArray Bool)) :
    Except String (NDArray Val) :=
  _reduction a "prod" mulV (Val.num 1) true axis keepdims initial where_

/-- `_reduce_max`: max seeded with negative infinity, `has_identity=False`. -/
def _reduce_max (a : NDArray Val) (axis : Option (List Int)) (keepdims : Bool)
    (initial : Option (NDArray Val)) (where_ : Option (NDArray Bool)) :
    Except String (NDArray Val) :=
  _reduction a "max" maxV Val.negInf false axis keepdims initial where_

/-- `_reduce_min`: min seeded with positive infinity, `has_identity=False`. -/
def _reduce_min (a : NDArray Val) (axis : Option (List Int)) (keepdims : Bool)
    (initial : Option (NDArray Val)) (where_ : Option (NDArray Bool)) :
    Except String (NDArray Val) :=
  _reduction a "min" minV Val.posInf false axis keepdims initial where_

/-- `_reduce_all` on boolean arrays. -/
def _reduce_all (m : NDArray Bool) (axis : Option (List Int)) (keepdims : Bool)
    (where_ : Option (NDArray Bool)) : Except String (NDArray Bool) :=
  _reduction m "all" and true true axis keepdims none where_

/-- `_reduce_any` on boolean arrays. -/
def _reduce_any (m : NDArray Bool) (axis : Option (List Int)) (keepdims : Bool)
    (where_ : Option (NDArray Bool)) : Except String (NDArray Bool) :=
  _reduction m "any" or false true axis keepdims none where_

/-! ### Elementwise helpers shared by the derived statistics -/

/-- Bool mask element viewed as a numeric 0/1 (dtype cast of a mask). -/
def boolToVal (b : Bool) : Val := if b then Val.num 1 else Val.num 0

/-- `_broadcast_to`: materialize an array at a broadcast shape. -/
def broadcastTo {α : Type} [Inhabited α] (x : NDArray α) (s : List Nat) : NDArray α :=
  ofFun s (fun idx => x.bget idx)

/-- Elementwise binary operation with broadcasting (`lax.add`/`sub`/`div`...). -/
def zipB (f : Val → Val → Val) (x y : NDArray Val) : NDArray Val :=
  ofFun (broadcastShapes x.shape y.shape) (fun idx => f (x.bget idx) (y.bget idx))

/-- `_axis_size`: product of the sizes of the given axes. -/
def _axis_size (shape : List Nat) (ax : List Int) : Except String Nat :=
  match canonListAxes shape.length ax with
  | .error e => .error e
  | .ok dims => .ok (dims.map (fun d => shape.getD d 0)).prod

/-! ### The NaN-lifting combinator (`_nan_reduction`) and its instances -/

/-- `_nan_reduction`: replace NaNs by the identity-like value, run the base
reduction, and optionally overwrite all-NaN slices with NaN.  The integer/bool
passthrough branch of the source is dtype-level; the `Val` domain models the
inexact dtypes the branch falls through to. -/
def _nan_reduction (a : NDArray Val)
    (jnp_reduction : NDArray Val → Option (List Int) → Bool →
      Option (NDArray Val) → Option (NDArray Bool) → Except String (NDArray Val))
    (init_val : Val) (nan_if_all_nan : Bool)
    (axis : Option (List Int)) (keepdims : Bool)
    (initial : Option (NDArray Val)) (where_ : Option (NDArray Bool)) :
    Except String (NDArray Val) :=
  match jnp_reduction (_where (mapA isnanV a) (scalarA init_val) a)
      axis keepdims initial where_ with
  | .error e => .error e
  | .ok out =>
    if nan_if_all_nan then
      match _reduce_all (mapA isnanV a) axis keepdims none with
      | .error e => .error e
      | .ok allnan => .ok (_where allnan (scalarA Val.nan) out)
    else
      .ok out

/-- `nanmin`: NaN→+inf replacement, all-NaN→NaN only when no `initial`. -/
def nanmin (a : NDArray Val) (axis : Option (List Int)) (keepdims : Bool)
    (initial : Option (NDArray Val)) (where_ : Option (NDArray Bool)) :
    Except String (NDArray Val) :=
  _nan_reduction a _reduce_min Val.posInf initial.isNone axis keepdims initial where_

/-- `nanmax`: NaN→-inf replacement, all-NaN→NaN only when no `initial`. -/
def nanmax (a : NDArray Val) (axis : Option (List Int)) (keepdims : Bool)
    (initial : Option (NDArray Val)) (where_ : Option (NDArray Bool)) :
    Except String (NDArray Val) :=
  _nan_reduction a _reduce_max Val.negInf initial.isNone axis keepdims initial where_

/-- `nansum`: NaN→0 replacement, no all-NaN overwrite. -/
def nansum (a : NDArray Val) (axis : Option (List Int)) (keepdims : Bool)
    (initial : Option (NDArray Val)) (where_ : Option (NDArray Bool)) :
    Except String (NDArray Val) :=
  _nan_reduction a _reduce_sum (Val.num 0) false axis keepdims initial where_

/-- `nanprod`: NaN→1 replacement, no all-NaN overwrite. -/
def nanprod (a : NDArray Val) (axis : Option (List Int)) (keepdims : Bool)
    (initial : Option (NDArray Val)) (where_ : Option (NDArray Bool)) :
    Except String (NDArray Val) :=
  _nan_reduction a _reduce_prod (Val.num 1) false axis keepdims initial where_

/-! ### Mean / variance (`_mean`, `_var`, `nanmean`, `nanvar`) -/

/-- Static (unmasked) reduction-count normalizer shared by `_mean`/`_var`. -/
def staticNormalizer (shape : List Nat) (axis : Option (List Int)) :
    Except String (NDArray Val) :=
  match axis with
  | none => .ok (scalarA (Val.num ((shape.prod : Nat) : Rat)))
  | some ax =>
    match _axis_size shape ax with
    | .error e => .error e
    | .ok n => .ok (scalarA (Val.num ((n : Nat) : Rat)))

/-- Masked normalizer: sum of the broadcast mask. -/
def maskedNormalizer (m : NDArray Bool) (shape : List Nat) (axis : Option (List Int))
    (keepdims : Bool) : Except String (NDArray Val) :=
  _reduce_sum (mapA boolToVal (broadcastTo m shape)) axis keepdims none none

def _mean (a : NDArray Val) (axis : Option (List Int)) (keepdims : Bool)
    (where_ : Option (NDArray Bool)) : Except String (NDArray Val) :=
  match (match where_ with
         | none => staticNormalizer a.shape axis
         | some m => maskedNormalizer m a.shape axis keepdims) with
  | .error e => .error e
  | .ok normalizer =>
    match _reduce_sum a axis keepdims none where_ with
    | .error e => .error e
    | .ok s => .ok (zipB divV s normalizer)

/-- The squared centered values of `_var`: `lax.square(lax.sub(a, a_mean))`
with the mean kept at full rank. -/
def varCentered (a : NDArray Val) (axis : Option (List Int))
    (where_ : Option (NDArray Bool)) : Except String (NDArray Val) :=
  match _mean a axis true where_ with
  | .error e => .error e
  | .ok a_mean => .ok (mapA squareV (zipB subV a a_mean))

def _var (a : NDArray Val) (axis : Option (List Int)) (correction : Rat)
    (keepdims : Bool) (where_ : Option (NDArray Bool)) : Except String (NDArray Val) :=
  match varCentered a axis where_ with
  | .error e => .error e
  | .ok centered =>
    match (match where_ with
           | none => staticNormalizer a.shape axis
           | some m => maskedNormalizer m a.shape axis keepdims) with
    | .error e => .error e
    | .ok normalizer0 =>
      let normalizer := mapA (fun v => subV v (Val.num correction)) normalizer0
      match _reduce_sum centered axis keepdims none where_ with
      | .error e => .error e
      | .ok result =>
        .ok (_where (mapA gtZeroV normalizer) (zipB divV result normalizer)
          (scalarA Val.nan))

/-- `nanmean` on inexact input: non-NaN count as normalizer over `nansum`. -/
def nanmean (a : NDArray Val) (axis : Option (List Int)) (keepdims : Bool)
    (where_ : Option (NDArray Bool)) : Except String (NDArray Val) :=
  let nan_mask := mapA (fun v => !(isnanV v)) a
  match _reduce_sum (mapA boolToVal nan_mask) axis keepdims none where_ with
  | .error e => .error e
  | .ok normalizer =>
    match nansum a axis keepdims none where_ with
    | .error e => .error e
    | .ok ns => .ok (zipB divV ns normalizer)

/-- The squared centered values of `nanvar`: NaN positions are zeroed before
squaring (the double-where trick). -/
def nanvarCentered (a : NDArray Val) (axis : Option (List Int))
    (where_ : Option (NDArray Bool)) : Except String (NDArray Val) :=
  match nanmean a axis true where_ with
  | .error e => .error e
  | .ok a_mean =>
    .ok (mapA squareV (_where (mapA isnanV a) (scalarA (Val.num 0)) (zipB subV a a_mean)))

def nanvar (a : NDArray Val) (axis : Option (List Int)) (ddof : Rat)
    (keepdims : Bool) (where_ : Option (NDArray Bool)) : Except String (NDArray Val) :=
  match nanvarCentered a axis where_ with
  | .error e => .error e
  | .ok centered =>
    match _reduce_sum (mapA boolToVal (mapA (fun v => !(isnanV v)) a))
        axis keepdims none where_ with
    | .error e => .error e
    | .ok normalizer0 =>
      let normalizer := mapA (fun v => subV v (Val.num ddof)) normalizer0
      let normalizer_mask := mapA leZeroV normalizer
      match _reduce_sum centered axis keepdims none where_ with
      | .error e => .error e
      | .ok result0 =>
        let result := _where normalizer_mask (scalarA Val.nan) result0
        let divisor := _where normalizer_mask (scalarA (Val.num 1)) normalizer
        .ok (zipB divV result divisor)

/-! ### Dtype model and cumulative reductions -/

/-- Dtype tags (64-bit mode, so `canonicalize_dtype` is the identity). -/
inductive DType where
  | bool | int8 | int16 | int32 | int64
  | uint8 | uint16 | uint32 | uint64
  | float16 | bfloat16 | float32 | float64
deriving DecidableEq, Repr

/-- Default signed integer dtype (`dtypes.int_`). -/
def int_ : DType := .int64

/-- Default unsigned integer dtype (`dtypes.uint`). -/
def uintD : DType := .uint64

def isSignedInt : DType → Bool
  | .int8 | .int16 | .int32 | .int64 => true
  | _ => false

def isUnsignedInt : DType → Bool
  | .uint8 | .uint16 | .uint32 | .uint64 => true
  | _ => false

/-- `iinfo(...).bits` for the integer dtypes (0 elsewhere; never consulted). -/
def intBits : DType → Nat
  | .int8 | .uint8 => 8
  | .int16 | .uint16 => 16
  | .int32 | .uint32 => 32
  | .int64 | .uint64 => 64
  | _ => 0

/-- Whether the dtype is a machine integer (signed or unsigned). -/
def isInt (d : DType) : Bool := isSignedInt d || isUnsignedInt d

/-- Two's-complement wrap of an integer into a `bits`-wide machine integer
(unsigned range when `signed` is false). -/
def wrapInt (bits : Nat) (signed : Bool) (n : Int) : Int :=
  let m : Int := ((2 ^ bits : Nat) : Int)
  let r := n % m
  if signed ∧ ((2 ^ (bits - 1) : Nat) : Int) ≤ r then r - m else r

/-- Machine-integer wrap of a value under a dtype: for the integer dtypes an
integer-valued rational is reduced modulo `2^bits` (two's complement for the
signed kinds); the other dtypes, and non-integer payloads, are untouched. -/
def wrapVal (d : DType) (v : Val) : Val :=
  if isInt d then
    match v with
    | .num q =>
      if q.den = 1 then .num ((wrapInt (intBits d) (isSignedInt d) q.num : Int) : Rat)
      else .num q
    | w => w
  else v

/-- `_promote_integer_dtype`: bool → default signed int, narrow unsigned →
default unsigned, narrow signed → default signed, otherwise unchanged. -/
def _promote_integer_dtype (dtype : DType) : DType :=
  if dtype = .bool then int_
  else if isUnsignedInt dtype then
    (if intBits dtype < intBits uintD then uintD else dtype)
  else if isSignedInt dtype then
    (if intBits dtype < intBits int_ then int_ else dtype)
  else dtype

/-- Dtype-tagged array for the cumulative-reduction model. -/
structure CArr where
  dtype : DType
  arr : NDArray Val
deriving DecidableEq, Repr

/-- Value component of `convert_element_type`.  Casting to bool maps a value
to its truthiness (0 or 1); casting to a machine-integer dtype wraps the
value into the dtype range (two's complement); floating casts keep the exact
value — rounding of concrete float casts is outside the ideal-value model. -/
def castVal (d : DType) (v : Val) : Val :=
  if d = .bool then
    match v with
    | .num q => .num (if q = 0 then 0 else 1)
    | _ => .num 1
  else wrapVal d v

def convert (x : CArr) (d : DType) : CArr := ⟨d, mapA (castVal d) x.arr⟩

/-- Inclusive prefix reduction along an axis (`lax.cumsum`/`lax.cumprod`). -/
def cumRed (op : Val → Val → Val) (e : Val) (x : NDArray Val) (axis : Nat) : NDArray Val :=
  ofFun x.shape (fun idx =>
    (List.range (idx.getD axis 0 + 1)).foldl
      (fun acc j => op acc (x.get (idx.set axis j))) e)

/-- The generic cumulative reduction built by `_make_cumulative_reduction`:
flatten when `axis` is `None`, optionally fill NaNs, resolve the accumulation
dtype (promoting integers when requested and always promoting a bool result
type), accumulate, and cast back to bool only when the user explicitly asked
for bool. -/
def _cumulative_reduction (op : Val → Val → Val) (e : Val)
    (fill_nan : Bool) (fill_value : Val) (promote_integers : Bool)
    (a : CArr) (axis : Option Int) (dtype : Option DType) : Except String CArr :=
  let a := if axis.isNone then (⟨a.dtype, ⟨[a.arr.shape.prod], a.arr.data⟩⟩ : CArr) else a
  let ax : Int := axis.getD 0
  match canonicalizeAxis ax a.arr.shape.length with
  | .error e1 => .error e1
  | .ok axN =>
    let a := if fill_nan then
        (⟨a.dtype, _where (mapA isnanV a.arr) (scalarA fill_value) a.arr⟩ : CArr)
      else a
    let result_type0 := dtype.getD a.dtype
    let result_type := if (dtype.isNone && promote_integers) || result_type0 = .bool
      then _promote_integer_dtype result_type0 else result_type0
    let a := convert a result_type
    let result : CArr := ⟨result_type,
      cumRed (fun acc v => wrapVal result_type (op acc v)) e a.arr axN⟩
    if dtype = some .bool then .ok (convert result .bool) else .ok result

def cumsum (a : CArr) (axis : Option Int) (dtype : Option DType) : Except String CArr :=
  _cumulative_reduction addV (Val.num 0) false (Val.num 0) false a axis dtype

def cumprod (a : CArr) (axis : Option Int) (dtype : Option DType) : Except String CArr :=
  _cumulative_reduction mulV (Val.num 1) false (Val.num 0) false a axis dtype

def nancumsum (a : CArr) (axis : Option Int) (dtype : Option DType) : Except String CArr :=
  _cumulative_reduction addV (Val.num 0) true (Val.num 0) false a axis dtype

def nancumprod (a : CArr) (axis : Option Int) (dtype : Option DType) : Except String CArr :=
  _cumulative_reduction mulV (Val.num 1) true (Val.num 1) false a axis dtype

def _cumsum_with_promotion (a : CArr) (axis : Option Int) (dtype : Option DType) :
    Except String CArr :=
  _cumulative_reduction addV (Val.num 0) false (Val.num 0) true a axis dtype

/-- Concatenation of two arrays along an axis (`lax_internal.concatenate`). -/
def concatAxis (x y : NDArray Val) (axis : Nat) : NDArray Val :=
  let dx := x.shape.getD axis 0
  ofFun (x.shape.set axis (dx + y.shape.getD axis 0)) (fun idx =>
    if idx.getD axis 0 < dx then x.get idx
    else y.get (idx.set axis (idx.getD axis 0 - dx)))

def nonScalarCumulativeMsg : String :=
  "The input must be non-scalar to take a cumulative sum, however a scalar value or scalar array was given."

def cumulativeAxisMsg : String :=
  "The axis argument is only optional for one-dimensional arrays."

/-- `cumulative_sum`: rejects scalar input, rejects `axis=None` above rank 1,
accumulates via the promoting cumsum, and optionally prepends a zero slice. -/
def cumulative_sum (x : CArr) (axis : Option Int) (dtype : Option DType)
    (include_initial : Bool) : Except String CArr :=
  if x.arr.shape.length = 0 then .error nonScalarCumulativeMsg
  else
    match (match axis with
           | none =>
             if 1 < x.arr.shape.length then .error cumulativeAxisMsg else .ok (0 : Int)
           | some a => .ok a : Except String Int) with
    | .error e => .error e
    | .ok ax =>
      match canonicalizeAxis ax x.arr.shape.length with
      | .error e => .error e
      | .ok axN =>
        match _cumsum_with_promotion x (some (axN : Int)) dtype with
        | .error e => .error e
        | .ok out =>
          if include_initial then
            let zeros : NDArray Val := ⟨x.arr.shape.set axN 1,
              List.replicate (x.arr.shape.set axN 1).prod (Val.num 0)⟩
            .ok ⟨out.dtype, concatAxis zeros out.arr axN⟩
          else
            .ok out

/-! ### Order statistics: the quantile kernel -/

inductive QMethod where
  | linear | lower | higher | midpoint | nearest
deriving DecidableEq, Repr

/-- Backend total order used by `lax.sort`: NaN sorts greatest. -/
def valLe : Val → Val → Bool
  | _, .nan => true
  | .nan, _ => false
  | .negInf, _ => true
  | _, .negInf => false
  | _, .posInf => true
  | .posInf, _ => false
  | .num a, .num b => decide (a ≤ b)

/-- `_quantile` specialized to the claim-relevant core path: rank-1 input
(`axis=None` ravels to this case), scalar `q`, `squash_nans=False`.  The
`method` string validation and complex rejection precede this path in the
source; `method` is an enumeration here and the value domain is real.  A NaN
anywhere poisons the whole slice, the slice is sorted, the fractional index
`q*(n-1)` is split into clamped low/high order statistics, and the method
combines the two sides. -/
def _quantile1 (a : List Val) (q : Rat) (method : QMethod) : Val :=
  let a1 := if a.any (fun v => isnanV v) then a.map (fun _ => Val.nan) else a
  let sorted := a1.mergeSort valLe
  let n : Rat := (a.length : Rat)
  let qn := q * (n - 1)
  let low : Int := ⌊qn⌋
  let high : Int := ⌈qn⌉
  let high_weight := qn - (low : Rat)
  let low_weight := 1 - high_weight
  let lowc : Nat := (min (max low 0) ((a.length : Int) - 1)).toNat
  let highc : Nat := (min (max high 0) ((a.length : Int) - 1)).toNat
  let low_value := sorted.getD lowc default
  let high_value := sorted.getD highc default
  match method with
  | .linear => addV (mulV low_value (Val.num low_weight))
      (mulV high_value (Val.num high_weight))
  | .lower => low_value
  | .higher => high_value
  | .nearest => if high_weight ≤ 1 / 2 then low_value else high_value
  | .midpoint => mulV (addV low_value high_value) (Val.num (1 / 2))

/-- `percentile` on the same specialized path: `q` divided by 100. -/
def percentile1 (a : List Val) (q : Rat) (method : QMethod) : Val :=
  _quantile1 a (q / 100) method

/-! ### Structural lemmas about the array model -/

/-- Well-formed array: the data length matches the shape. -/
def Wf {α : Type} (x : NDArray α) : Prop := x.data.length = x.shape.prod

theorem mem_allIndices {s idx : List Nat} :
    idx ∈ allIndices s ↔ List.Forall₂ (fun i d => i < d) idx s := by
  induction s generalizing idx with
  | nil =>
    cases idx <;> simp [allIndices]
  | cons d ds ih =>
    cases idx with
    | nil => simp [allIndices]
    | cons i is => simp [allIndices, ih]

theorem alignIdx_self {s idx : List Nat} (h : List.Forall₂ (fun i d => i < d) idx s) :
    alignIdx s idx = idx := by
  have hlen : idx.length = s.length := List.Forall₂.length_eq h
  unfold alignIdx
  rw [hlen, Nat.sub_self, List.drop_zero]
  induction h with
  | nil => rfl
  | cons hid htail ihtail =>
    rename_i i d is ds
    simp only [List.zipWith_cons_cons]
    rw [ihtail (by simpa using hlen)]
    by_cases hd : d = 1
    · subst hd
      have : i = 0 := Nat.lt_one_iff.mp hid
      simp [this]
    · simp [hd]

theorem bget_self {α : Type} [Inhabited α] (x : NDArray α) {idx : List Nat}
    (h : idx ∈ allIndices x.shape) : x.bget idx = x.get idx := by
  unfold NDArray.bget
  rw [alignIdx_self (mem_allIndices.mp h)]

theorem bget_scalarA {α : Type} [Inhabited α] (v : α) (idx : List Nat) :
    (scalarA v).bget idx = v := by
  simp [NDArray.bget, scalarA, alignIdx, NDArray.get, flatIndex]

theorem ndext {α : Type} {x y : NDArray α} (h1 : x.shape = y.shape)
    (h2 : x.data = y.data) : x = y := by
  cases x; cases y; cases h1; cases h2; rfl

theorem zipWith_ones_left (s : List Nat) :
    List.zipWith (fun a b => if a = 1 then b else a) (List.replicate s.length 1) s = s := by
  induction s with
  | nil => rfl
  | cons d ds ih => simp [List.replicate_succ, ih]

theorem zipWith_ones_right (s : List Nat) :
    List.zipWith (fun a b => if a = 1 then b else a) s (List.replicate s.length 1) = s := by
  induction s with
  | nil => rfl
  | cons d ds ih =>
    simp only [List.length_cons, List.replicate_succ, List.zipWith_cons_cons, ih]
    by_cases hd : d = 1 <;> simp [hd]

theorem bshape_nil_left (s : List Nat) : broadcastShapes [] s = s := by
  unfold broadcastShapes
  simp only [List.length_nil, Nat.zero_max, Nat.sub_zero, Nat.sub_self,
    List.replicate_zero, List.append_nil, List.nil_append]
  exact zipWith_ones_left s

theorem bshape_nil_right (s : List Nat) : broadcastShapes s [] = s := by
  unfold broadcastShapes
  simp only [List.length_nil, Nat.max_zero, Nat.sub_zero, Nat.sub_self,
    List.replicate_zero, List.append_nil, List.nil_append]
  exact zipWith_ones_right s

theorem bshape_self (s : List Nat) : broadcastShapes s s = s := by
  unfold broadcastShapes
  simp only [Nat.max_self, Nat.sub_self, List.replicate_zero, List.nil_append]
  induction s with
  | nil => rfl
  | cons d ds ih =>
    simp only [List.zipWith_cons_cons, ih]
    by_cases hd : d = 1 <;> simp [hd]

theorem shape_mapA {α β : Type} (f : α → β) (x : NDArray α) :
    (mapA f x).shape = x.shape := rfl

theorem data_eq_map_get {α : Type} [Inhabited α] {x : NDArray α} (h : Wf x) :
    x.data = (allIndices x.shape).map x.get := by
  apply List.ext_getElem
  · rw [List.length_map, length_allIndices, h]
  · intro j hj hj2
    rw [List.getElem_map]
    unfold NDArray.get
    rw [flatIndex_getElem x.shape j (by simpa using hj2)]
    rw [List.getD_eq_getElem?_getD, List.getElem?_eq_getElem hj]
    rfl

/-- `mapA` commutes with `get` at any index when `f` fixes the default. -/
theorem get_mapA_total {α β : Type} [Inhabited α] [Inhabited β] (f : α → β)
    (hf : f default = default) (x : NDArray α) (idx : List Nat) :
    (mapA f x).get idx = f (x.get idx) := by
  unfold mapA NDArray.get
  simp only
  rw [List.getD_eq_getElem?_getD, List.getElem?_map, List.getD_eq_getElem?_getD]
  cases hx : x.data[flatIndex x.shape idx]? with
  | none => simp [hf]
  | some v => simp

theorem get_reduceArr {α : Type} [Inhabited α] (x : NDArray α) (init : α)
    (op : α → α → α) (dims : List Nat) {oidx : List Nat}
    (h : oidx ∈ allIndices (removeDims x.shape dims)) :
    (reduceArr x init op dims).get oidx =
      ((allIndices (selectDims x.shape dims)).map
        (fun ridx => x.get (mergeIdx dims x.shape.length oidx ridx))).foldl op init := by
  unfold reduceArr
  rw [get_ofFun _ _ h, List.foldl_map]

/-- Per-slice element list of an array for a reduction-axis set. -/
def sliceList {α : Type} [Inhabited α] (x : NDArray α) (dims : List Nat)
    (oidx : List Nat) : List α :=
  (allIndices (selectDims x.shape dims)).map
    (fun ridx => x.get (mergeIdx dims x.shape.length oidx ridx))

theorem get_reduceArr_sliceList {α : Type} [Inhabited α] (x : NDArray α) (init : α)
    (op : α → α → α) (dims : List Nat) {oidx : List Nat}
    (h : oidx ∈ allIndices (removeDims x.shape dims)) :
    (reduceArr x init op dims).get oidx = (sliceList x dims oidx).foldl op init :=
  get_reduceArr x init op dims h

theorem sliceList_mapA {α β : Type} [Inhabited α] [Inhabited β] (f : α → β)
    (hf : f default = default) (x : NDArray α) (dims : List Nat) (oidx : List Nat) :
    sliceList (mapA f x) dims oidx = (sliceList x dims oidx).map f := by
  unfold sliceList
  rw [shape_mapA, List.map_map]
  exact List.map_congr_left (fun ridx _ => get_mapA_total f hf x _)

/-- The NaN-replacement select evaluates to an elementwise map on a
well-formed array. -/
theorem where_isnan_eq_mapA (a : NDArray Val) (v : Val) (h : Wf a) :
    _where (mapA isnanV a) (scalarA v) a =
      mapA (fun w => if isnanV w then v else w) a := by
  have hs : broadcastShapes (mapA isnanV a).shape
      (broadcastShapes (scalarA v).shape a.shape) = a.shape := by
    rw [shape_mapA]
    show broadcastShapes a.shape (broadcastShapes [] a.shape) = a.shape
    rw [bshape_nil_left, bshape_self]
  have hdata : (allIndices (broadcastShapes (mapA isnanV a).shape
      (broadcastShapes (scalarA v).shape a.shape))).map
        (fun idx => if (mapA isnanV a).bget idx then (scalarA v).bget idx else a.bget idx) =
      a.data.map (fun w => if isnanV w then v else w) := by
    rw [hs]
    conv_rhs => rw [data_eq_map_get h]
    rw [List.map_map]
    refine List.map_congr_left (fun idx hidx => ?_)
    rw [bget_scalarA]
    rw [bget_self (mapA isnanV a) (by rw [shape_mapA]; exact hidx), bget_self a hidx,
      get_mapA_total isnanV (by decide)]
    rfl
  refine ndext ?_ ?_
  · exact hs
  · exact hdata

/-! ### Fold lemmas -/

theorem foldl_right_fixed {α : Type} (op : α → α → α) (l : List α) (e : α)
    (h : ∀ x ∈ l, ∀ acc, op acc x = acc) : l.foldl op e = e := by
  induction l generalizing e with
  | nil => rfl
  | cons x xs ih =>
    rw [List.foldl_cons, h x (by simp)]
    exact ih e (fun y hy acc => h y (by simp [hy]) acc)

theorem foldl_and_eq (l : List Bool) (b : Bool) :
    l.foldl and b = (b && l.all (fun x => x)) := by
  induction l generalizing b with
  | nil => simp
  | cons x xs ih => simp [ih, Bool.and_assoc]

theorem foldl_map_replace (op : Val → Val → Val) (r : Val)
    (hop : ∀ acc, op acc r = acc) (l : List Val) (acc : Val) :
    (l.map (fun v => if isnanV v then r else v)).foldl op acc =
      (l.filter (fun v => !(isnanV v))).foldl op acc := by
  induction l generalizing acc with
  | nil => rfl
  | cons x xs ih =>
    by_cases hx : isnanV x
    · simp only [List.map_cons, hx, if_pos, List.foldl_cons, hop,
        List.filter_cons, Bool.not_true, Bool.false_eq_true, if_neg]
      simpa [hx] using ih acc
    · simp only [List.map_cons, hx, if_neg, List.foldl_cons, List.filter_cons]
      simpa [hx] using ih (op acc x)

theorem minV_posInf_right (acc : Val) : minV acc Val.posInf = acc := by
  cases acc <;> rfl

theorem maxV_negInf_right (acc : Val) : maxV acc Val.negInf = acc := by
  cases acc <;> rfl

theorem addV_zero_right (acc : Val) : addV acc (Val.num 0) = acc := by
  cases acc <;> simp [addV]

theorem mulV_one_right (acc : Val) : mulV acc (Val.num 1) = acc := by
  cases acc <;> simp [mulV]

theorem addV_zero_left (x : Val) : addV (Val.num 0) x = x := by
  cases x <;> simp [addV]

theorem mulV_one_left (x : Val) : mulV (Val.num 1) x = x := by
  cases x <;> simp [mulV]

theorem maxV_negInf_left (x : Val) : maxV Val.negInf x = x := by
  cases x <;> rfl

theorem minV_posInf_left (x : Val) : minV Val.posInf x = x := by
  cases x <;> rfl

theorem foldl_add_boolToVal (l : List Bool) (q : Rat) :
    (l.map boolToVal).foldl addV (Val.num q) =
      Val.num (q + ((l.countP (fun b => b) : Nat) : Rat)) := by
  induction l generalizing q with
  | nil => simp
  | cons b bs ih =>
    rw [List.map_cons, List.foldl_cons]
    cases b with
    | false =>
      show (bs.map boolToVal).foldl addV (addV (Val.num q) (Val.num 0)) = _
      rw [addV_zero_right, ih]
      simp [List.countP_cons]
    | true =>
      show (bs.map boolToVal).foldl addV (addV (Val.num q) (Val.num 1)) = _
      show (bs.map boolToVal).foldl addV (Val.num (q + 1)) = _
      rw [ih]
      have : ((bs.countP (fun b => b) + 1 : Nat) : Rat) =
          ((bs.countP (fun b => b) : Nat) : Rat) + 1 := by push_cast; ring
      simp [List.countP_cons, this]
      ring

/-! ### Unfolding the reduction engine at a resolved axis set -/

theorem _reduction_unfold {α : Type} [Inhabited α] (a : NDArray α) (name : String)
    (op : α → α → α) (init_val : α) (has_identity : Bool) (axis : Option (List Int))
    (keepdims : Bool) (initial : Option (NDArray α)) (where_ : Option (NDArray Bool))
    (dims : List Nat) (h : _reduction_dims a.shape.length axis = .ok dims) :
    _reduction a name op init_val has_identity axis keepdims initial where_ =
      if initial.isNone && !has_identity && where_.isSome then
        .error (noIdentityWhereMsg name)
      else if initial.isNone && !has_identity &&
          !(dims.all fun d => decide (1 ≤ a.shape.getD d 0)) then
        .error (zeroSizeMsg name)
      else
        let a1 := match where_ with
          | some m => _where m a (scalarA init_val)
          | none => a
        let r0 := reduceArr a1 init_val op dims
        match initial with
        | some ini =>
          if ini.shape = [] then
            .ok (if keepdims then expandDims (mapA (op (ini.get [])) r0) dims
                 else mapA (op (ini.get [])) r0)
          else .error nonScalarInitialMsg
        | none => .ok (if keepdims then expandDims r0 dims else r0) := by
  unfold _reduction
  rw [h]

/-! ### The four generic-core instantiations as a parametrized family -/

inductive RKind where
  | sum | prod | max | min
deriving DecidableEq, Repr

def rName : RKind → String
  | .sum => "sum"
  | .prod => "prod"
  | .max => "max"
  | .min => "min"

def rOp : RKind → Val → Val → Val
  | .sum => addV
  | .prod => mulV
  | .max => maxV
  | .min => minV

/-- The `init_val` each instantiation passes to the generic core. -/
def rInit : RKind → Val
  | .sum => Val.num 0
  | .prod => Val.num 1
  | .max => Val.negInf
  | .min => Val.posInf

def rHasIdentity : RKind → Bool
  | .sum => true
  | .prod => true
  | .max => false
  | .min => false

def applyR (k : RKind) (a : NDArray Val) (axis : Option (List Int)) (keepdims : Bool)
    (initial : Option (NDArray Val)) (where_ : Option (NDArray Bool)) :
    Except String (NDArray Val) :=
  match k with
  | .sum => _reduce_sum a axis keepdims initial where_
  | .prod => _reduce_prod a axis keepdims initial where_
  | .max => _reduce_max a axis keepdims initial where_
  | .min => _reduce_min a axis keepdims initial where_

theorem applyR_eq (k : RKind) (a : NDArray Val) (axis : Option (List Int))
    (keepdims : Bool) (initial : Option (NDArray Val)) (where_ : Option (NDArray Bool)) :
    applyR k a axis keepdims initial where_ =
      _reduction a (rName k) (rOp k) (rInit k) (rHasIdentity k) axis keepdims
        initial where_ := by
  cases k <;> rfl

/-! ### Claim theorems -/

/-- C1: for each of sum/prod/max/min with a supplied `initial`: a non-scalar
`initial` is rejected with an error; a scalar `initial` is combined with the
operator into the backend result after the reduce, while the backend reduce is
seeded with the instantiation's own init value, which is a true algebraic
identity of the operator over the value domain. -/
theorem claim_C1_initial_protocol (k : RKind) (a : NDArray Val)
    (axis : Option (List Int)) (keepdims : Bool) (ini : NDArray Val) (dims : List Nat)
    (h : _reduction_dims a.shape.length axis = .ok dims) :
    (ini.shape ≠ [] →
      applyR k a axis keepdims (some ini) none = .error nonScalarInitialMsg) ∧
    (ini.shape = [] →
      applyR k a axis keepdims (some ini) none =
        .ok (if keepdims then
               expandDims (mapA (rOp k (ini.get []))
                 (reduceArr a (rInit k) (rOp k) dims)) dims
             else mapA (rOp k (ini.get [])) (reduceArr a (rInit k) (rOp k) dims))) ∧
    (∀ x, rOp k (rInit k) x = x) := by
  have hu := _reduction_unfold a (rName k) (rOp k) (rInit k) (rHasIdentity k)
    axis keepdims (some ini) none dims h
  refine ⟨?_, ?_, ?_⟩
  · intro hne
    rw [applyR_eq, hu]
    simp [hne]
  · intro he
    rw [applyR_eq, hu]
    simp [he]
  · intro x
    cases k
    · exact addV_zero_left x
    · exact mulV_one_left x
    · exact maxV_negInf_left x
    · exact minV_posInf_left x

/-- C2: the no-identity reductions max and min reject a `where` mask without
`initial`, for every input array and axis specification. -/
theorem claim_C2_where_without_initial (a : NDArray Val) (m : NDArray Bool)
    (axis : Option (List Int)) (keepdims : Bool) :
    _reduce_max a axis keepdims none (some m) = .error (noIdentityWhereMsg "max") ∧
    _reduce_min a axis keepdims none (some m) = .error (noIdentityWhereMsg "min") :=
  ⟨rfl, rfl⟩

/-- C3: max/min without `initial`: a reduced axis of size 0 triggers the
zero-size no-identity error; when every reduced axis has size at least 1 the
validation passes and a result is produced. -/
theorem claim_C3_zero_size (a : NDArray Val) (axis : Option (List Int))
    (keepdims : Bool) (dims : List Nat)
    (h : _reduction_dims a.shape.length axis = .ok dims) :
    ((∃ d ∈ dims, a.shape.getD d 0 = 0) →
      _reduce_max a axis keepdims none none = .error (zeroSizeMsg "max") ∧
      _reduce_min a axis keepdims none none = .error (zeroSizeMsg "min")) ∧
    ((∀ d ∈ dims, 1 ≤ a.shape.getD d 0) →
      (∃ r, _reduce_max a axis keepdims none none = .ok r) ∧
      (∃ r, _reduce_min a axis keepdims none none = .ok r)) := by
  have hmax := _reduction_unfold a "max" maxV Val.negInf false axis keepdims
    none none dims h
  have hmin := _reduction_unfold a "min" minV Val.posInf false axis keepdims
    none none dims h
  constructor
  · rintro ⟨d, hd, hd0⟩
    have hd0' : a.shape[d]?.getD 0 = 0 := by
      rw [← List.getD_eq_getElem?_getD]; exact hd0
    have hall : (dims.all fun d => decide (1 ≤ a.shape.getD d 0)) = false := by
      rw [List.all_eq_false]
      exact ⟨d, hd, by simp [List.getD_eq_getElem?_getD, hd0']⟩
    constructor
    · rw [_reduce_max, hmax, hall]
      rw [if_neg (by decide), if_pos (by decide)]
    · rw [_reduce_min, hmin, hall]
      rw [if_neg (by decide), if_pos (by decide)]
  · intro hge
    have hall : (dims.all fun d => decide (1 ≤ a.shape.getD d 0)) = true := by
      rw [List.all_eq_true]
      intro d hd
      simpa using hge d hd
    constructor
    · rw [_reduce_max, hmax, hall]
      rw [if_neg (by decide), if_neg (by decide)]
      exact ⟨_, rfl⟩
    · rw [_reduce_min, hmin, hall]
      rw [if_neg (by decide), if_neg (by decide)]
      exact ⟨_, rfl⟩

/-- C4: a masked sum equals the sum of the array with masked-out elements
replaced by 0, realized by identity substitution before the backend reduce. -/
theorem claim_C4_masked_sum (a : NDArray Val) (m : NDArray Bool)
    (axis : Option (List Int)) (keepdims : Bool)
    (h : broadcastShapes m.shape a.shape = a.shape) :
    _reduce_sum a axis keepdims none (some m) =
      _reduce_sum (_where m a (scalarA (Val.num 0))) axis keepdims none none := by
  have hshape : (_where m a (scalarA (Val.num 0))).shape = a.shape := by
    show broadcastShapes m.shape
      (broadcastShapes a.shape (scalarA (Val.num 0) : NDArray Val).shape) = a.shape
    rw [show (scalarA (Val.num 0) : NDArray Val).shape = ([] : List Nat) from rfl,
      bshape_nil_right, h]
  unfold _reduce_sum _reduction
  rw [hshape]
  rfl

/-! ### Order-statistic views of the quantile kernel -/

/-- The NaN-poisoned, sorted slice the quantile kernel indexes into. -/
def sortedSlice (a : List Val) : List Val :=
  (if a.any (fun v => isnanV v) then a.map (fun _ => Val.nan) else a).mergeSort valLe

/-- Fractional index `q*(n-1)`. -/
def fracIndex (a : List Val) (q : Rat) : Rat := q * ((a.length : Rat) - 1)

/-- High-side fractional weight (distance above the floor index). -/
def highWeightQ (a : List Val) (q : Rat) : Rat :=
  fracIndex a q - ((⌊fracIndex a q⌋ : Int) : Rat)

/-- Low-side order statistic (floor index, clamped to the slice). -/
def lowOrderStat (a : List Val) (q : Rat) : Val :=
  (sortedSlice a).getD
    ((min (max ⌊fracIndex a q⌋ 0) ((a.length : Int) - 1)).toNat) default

/-- High-side order statistic (ceiling index, clamped to the slice). -/
def highOrderStat (a : List Val) (q : Rat) : Val :=
  (sortedSlice a).getD
    ((min (max ⌈fracIndex a q⌉ 0) ((a.length : Int) - 1)).toNat) default

/-- C7: `method="nearest"` picks the low order statistic whenever the
high-side fractional weight is at most one half, and the high order statistic
otherwise; in particular an exact tie (weight 1/2) picks the low side.  The
same holds for `percentile` at `q/100`. -/
theorem claim_C7_nearest_tie (a : List Val) (q : Rat) :
    (_quantile1 a q .nearest =
      if highWeightQ a q ≤ 1 / 2 then lowOrderStat a q else highOrderStat a q) ∧
    (highWeightQ a q = 1 / 2 → _quantile1 a q .nearest = lowOrderStat a q) ∧
    (percentile1 a q .nearest =
      if highWeightQ a (q / 100) ≤ 1 / 2 then lowOrderStat a (q / 100)
      else highOrderStat a (q / 100)) := by
  have h1 : ∀ p : Rat, _quantile1 a p .nearest =
      if highWeightQ a p ≤ 1 / 2 then lowOrderStat a p else highOrderStat a p :=
    fun p => rfl
  refine ⟨h1 q, ?_, h1 (q / 100)⟩
  intro hw
  rw [h1 q, if_pos (by rw [hw])]

/-! ### Cumulative-reduction lemmas -/

theorem allIndices_singleton (n : Nat) :
    allIndices [n] = (List.range n).map (fun i => [i]) := by
  simp only [allIndices]
  induction List.range n with
  | nil => rfl
  | cons x xs ih => simp_all [allIndices]

theorem mapA_id {α : Type} (x : NDArray α) : mapA (fun v => v) x = x := by
  cases x
  simp [mapA]

theorem promote_ne_bool (d : DType) : _promote_integer_dtype d ≠ .bool := by
  cases d <;> decide

theorem get_rank1 (B : NDArray Val) (n : Nat) (hB : B.shape = [n]) (i : Nat) :
    B.get [i] = B.data.getD i default := by
  unfold NDArray.get
  rw [hB]
  show B.data.getD (i * List.prod [] + flatIndex [] []) default = _
  simp [flatIndex]

/-- Concatenating a one-element slice ahead of a rank-1 array conses its
value onto the data. -/
theorem concatAxis_one_cons (v : Val) (B : NDArray Val) (n : Nat)
    (hB : B.shape = [n]) (hlen : B.data.length = n) :
    (concatAxis ⟨[1], [v]⟩ B 0).data = v :: B.data := by
  have h1 : concatAxis ⟨[1], [v]⟩ B 0 =
      ofFun [1 + n] (fun idx =>
        if idx.getD 0 0 < 1 then (⟨[1], [v]⟩ : NDArray Val).get idx
        else B.get (idx.set 0 (idx.getD 0 0 - 1))) := by
    unfold concatAxis
    rw [hB]
    rfl
  rw [h1]
  show (allIndices [1 + n]).map _ = _
  rw [allIndices_singleton, List.map_map, List.range_add, List.map_append, List.map_map]
  refine congrArg₂ List.append rfl ?_
  apply List.ext_getElem
  · simp [hlen]
  · intro j hj hj2
    simp only [List.getElem_map, List.getElem_range, Function.comp_apply]
    rw [show ([1 + j].getD 0 0) = 1 + j from rfl, if_neg (by omega)]
    have hset : ([1 + j].set 0 (1 + j - 1)) = [j] := by simp
    rw [hset, get_rank1 B n hB j]
    rw [List.getD_eq_getElem?_getD, List.getElem?_eq_getElem hj2]
    rfl

/-- C8 (corrected): `cumulative_sum` with `include_initial=True` on rank-1
input prepends a zero ahead of exactly the `cumsum` values whenever the input
dtype is its own integer promotion (or bool) — then both sides accumulate in
the same dtype.  For narrow integer dtypes the source equality fails, because
`cumsum` accumulates unpromoted and wraps while `cumulative_sum` promotes;
see the counterexample.  Scalar input is rejected, and `axis=None` is
rejected above rank 1. -/
theorem claim_C8_cumulative_sum :
    (∀ x : CArr, x.arr.shape.length = 1 →
      _promote_integer_dtype x.dtype = x.dtype ∨ x.dtype = DType.bool →
      ∃ r c, cumulative_sum x none none true = .ok r ∧
        cumsum x none none = .ok c ∧
        r.arr.data = Val.num 0 :: c.arr.data) ∧
    (∀ y : CArr, ∀ axis : Option Int, ∀ dtype : Option DType, ∀ ii : Bool,
      y.arr.shape.length = 0 →
      cumulative_sum y axis dtype ii = .error nonScalarCumulativeMsg) ∧
    (∀ y : CArr, ∀ dtype : Option DType, ∀ ii : Bool, 1 < y.arr.shape.length →
      cumulative_sum y none dtype ii = .error cumulativeAxisMsg) := by
  refine ⟨?_, ?_, ?_⟩
  · intro x hx hp
    obtain ⟨d, hd⟩ := List.length_eq_one.mp hx
    have hflat : (⟨[x.arr.shape.prod], x.arr.data⟩ : NDArray Val) = x.arr := by
      refine ndext ?_ rfl
      rw [hd, List.prod_singleton]
    have hrt : (if (false || decide (x.dtype = DType.bool)) = true
        then _promote_integer_dtype x.dtype else x.dtype) =
        _promote_integer_dtype x.dtype := by
      rcases hp with hp | hp
      · by_cases hb : x.dtype = DType.bool
        · rw [hb] at hp
          exact absurd hp (by decide)
        · rw [if_neg (by simp [hb])]
          exact hp.symm
      · rw [if_pos (by rw [hp]; rfl), hp]
    have hlen : (cumRed
        (fun acc v => wrapVal (_promote_integer_dtype x.dtype) (addV acc v))
        (Val.num 0) (mapA (castVal (_promote_integer_dtype x.dtype)) x.arr)
        0).data.length = d := by
      show ((allIndices x.arr.shape).map _).length = d
      rw [List.length_map, length_allIndices, hd, List.prod_singleton]
    have hshape : (cumRed
        (fun acc v => wrapVal (_promote_integer_dtype x.dtype) (addV acc v))
        (Val.num 0) (mapA (castVal (_promote_integer_dtype x.dtype)) x.arr)
        0).shape = [d] := hd
    -- the promoted sum
    have e1 : cumulative_sum x none none true = .ok ⟨_promote_integer_dtype x.dtype,
        concatAxis ⟨[1], [Val.num 0]⟩
          (cumRed (fun acc v => wrapVal (_promote_integer_dtype x.dtype) (addV acc v))
            (Val.num 0) (mapA (castVal (_promote_integer_dtype x.dtype)) x.arr) 0)
          0⟩ := by
      unfold cumulative_sum _cumsum_with_promotion _cumulative_reduction
      simp only [Option.isNone_some, Bool.false_eq_true, if_false, Option.getD_some]
      rw [hd]
      rfl
    -- the plain cumsum accumulates in the same dtype under the hypothesis
    have e2 : ∃ c, cumsum x none none = .ok c ∧
        c.arr = cumRed
          (fun acc v => wrapVal (_promote_integer_dtype x.dtype) (addV acc v))
          (Val.num 0) (mapA (castVal (_promote_integer_dtype x.dtype)) x.arr) 0 := by
      refine ⟨⟨(if (false || decide (x.dtype = DType.bool)) = true
            then _promote_integer_dtype x.dtype else x.dtype),
          cumRed (fun acc v => wrapVal
              (if (false || decide (x.dtype = DType.bool)) = true
                then _promote_integer_dtype x.dtype else x.dtype) (addV acc v))
            (Val.num 0)
            (mapA (castVal (if (false || decide (x.dtype = DType.bool)) = true
                then _promote_integer_dtype x.dtype else x.dtype))
              ⟨[x.arr.shape.prod], x.arr.data⟩) 0⟩, rfl, ?_⟩
      rw [hrt, hflat]
    obtain ⟨c, hc1, hc2⟩ := e2
    refine ⟨_, c, e1, hc1, ?_⟩
    show (concatAxis ⟨[1], [Val.num 0]⟩
      (cumRed (fun acc v => wrapVal (_promote_integer_dtype x.dtype) (addV acc v))
        (Val.num 0) (mapA (castVal (_promote_integer_dtype x.dtype)) x.arr) 0) 0).data =
      Val.num 0 :: c.arr.data
    rw [hc2, concatAxis_one_cons (Val.num 0) _ d hshape hlen]
  · intro y axis dtype ii hy
    unfold cumulative_sum
    rw [if_pos hy]
  · intro y dtype ii hy
    unfold cumulative_sum
    rw [if_neg (by omega), if_pos hy]

theorem _cumulative_reduction_some_axis (op : Val → Val → Val) (e : Val)
    (fn : Bool) (fv : Val) (pi : Bool) (a : CArr) (ax : Int) (axN : Nat)
    (dtype : Option DType) (hax : canonicalizeAxis ax a.arr.shape.length = .ok axN) :
    _cumulative_reduction op e fn fv pi a (some ax) dtype =
      (let a2 : CArr := if fn then
          ⟨a.dtype, _where (mapA isnanV a.arr) (scalarA fv) a.arr⟩ else a
       let rt0 := dtype.getD a2.dtype
       let rt := if (dtype.isNone && pi) || rt0 = .bool
         then _promote_integer_dtype rt0 else rt0
       let res : CArr := ⟨rt,
         cumRed (fun acc v => wrapVal rt (op acc v)) e (convert a2 rt).arr axN⟩
       if dtype = some .bool then .ok (convert res .bool) else .ok res) := by
  unfold _cumulative_reduction
  simp only [Option.isNone_some, Bool.false_eq_true, if_false, Option.getD_some]
  rw [hax]

/-- With a bool input and a non-bool requested dtype, the requested dtype is
used for both accumulation and result. -/
theorem cumulative_dtype_passthrough (op : Val → Val → Val) (e : Val)
    (fn : Bool) (fv : Val) (a : CArr) (ha : a.dtype = DType.bool)
    (ax : Int) (axN : Nat) (hax : canonicalizeAxis ax a.arr.shape.length = .ok axN)
    (dt : DType) (hdt : dt ≠ DType.bool) :
    _cumulative_reduction op e fn fv false a (some ax) (some dt) =
      .ok ⟨dt, cumRed (fun acc v => wrapVal dt (op acc v)) e (convert
        (if fn then ⟨DType.bool, _where (mapA isnanV a.arr) (scalarA fv) a.arr⟩ else a)
        dt).arr axN⟩ := by
  have h3 := _cumulative_reduction_some_axis op e fn fv false a ax axN (some dt) hax
  rw [ha] at h3
  rw [h3]
  simp only [Option.getD_some, Option.isNone_some, Bool.false_and, Bool.false_or]
  rw [if_neg (by simp [hdt]), if_neg (by simpa using hdt)]

/-- Core dtype behaviour of the four cumulative reductions on bool input. -/
theorem cumulative_bool_core (op : Val → Val → Val) (e : Val) (fn : Bool) (fv : Val)
    (a : CArr) (ha : a.dtype = DType.bool) (ax : Int) (axN : Nat)
    (hax : canonicalizeAxis ax a.arr.shape.length = .ok axN) :
    ∃ ri rb, _cumulative_reduction op e fn fv false a (some ax) none = .ok ri ∧
      _cumulative_reduction op e fn fv false a (some ax) (some DType.bool) = .ok rb ∧
      ri.dtype = int_ ∧ rb.dtype = DType.bool ∧ rb = convert ri DType.bool ∧
      (∀ dt r, _cumulative_reduction op e fn fv false a (some ax) (some dt) = .ok r →
        (r.dtype = DType.bool ↔ dt = DType.bool)) := by
  have h1 := _cumulative_reduction_some_axis op e fn fv false a ax axN none hax
  have h2 := _cumulative_reduction_some_axis op e fn fv false a ax axN
    (some DType.bool) hax
  have hiff : ∀ dt r, _cumulative_reduction op e fn fv false a (some ax) (some dt) =
      .ok r → (r.dtype = DType.bool ↔ dt = DType.bool) := by
    intro dt r hr
    by_cases hdt : dt = DType.bool
    · subst hdt
      rw [h2] at hr
      have hok : r = convert ⟨_, _⟩ DType.bool := (Except.ok.inj hr).symm
      rw [hok]
      simp [convert]
    · rw [cumulative_dtype_passthrough op e fn fv a ha ax axN hax dt hdt] at hr
      have hok := Except.ok.inj hr
      rw [← hok]
  cases fn with
  | false =>
    simp only [Bool.false_eq_true, if_false, ha] at h1 h2
    exact ⟨⟨DType.int64, cumRed (fun acc v => wrapVal DType.int64 (op acc v)) e
        (convert a DType.int64).arr axN⟩, _,
      h1.trans rfl, h2.trans rfl, rfl, rfl, rfl, hiff⟩
  | true =>
    simp only [if_true, ha] at h1 h2
    exact ⟨⟨DType.int64, cumRed (fun acc v => wrapVal DType.int64 (op acc v)) e (convert
        ⟨DType.bool, _where (mapA isnanV a.arr) (scalarA fv) a.arr⟩ DType.int64).arr axN⟩,
      _, h1.trans rfl, h2.trans rfl, rfl, rfl, rfl, hiff⟩

/-- With `initial` supplied, the NaN-lifting combinator reduces the
NaN-replaced array and skips the all-NaN overwrite entirely. -/
theorem _nan_reduction_with_initial (a : NDArray Val)
    (f : NDArray Val → Option (List Int) → Bool → Option (NDArray Val) →
      Option (NDArray Bool) → Except String (NDArray Val))
    (iv : Val) (i : NDArray Val) (axis : Option (List Int)) (keepdims : Bool)
    (where_ : Option (NDArray Bool)) :
    _nan_reduction a f iv (some i).isNone axis keepdims (some i) where_ =
      f (_where (mapA isnanV a) (scalarA iv) a) axis keepdims (some i) where_ := by
  unfold _nan_reduction
  cases f (_where (mapA isnanV a) (scalarA iv) a) axis keepdims (some i) where_ <;> rfl

/-- With the all-NaN flag off, the NaN-lifting combinator is exactly the base
reduction of the NaN-replaced array. -/
theorem _nan_reduction_no_flag (a : NDArray Val)
    (f : NDArray Val → Option (List Int) → Bool → Option (NDArray Val) →
      Option (NDArray Bool) → Except String (NDArray Val))
    (iv : Val) (axis : Option (List Int)) (keepdims : Bool)
    (initial : Option (NDArray Val)) (where_ : Option (NDArray Bool)) :
    _nan_reduction a f iv false axis keepdims initial where_ =
      f (_where (mapA isnanV a) (scalarA iv) a) axis keepdims initial where_ := by
  unfold _nan_reduction
  cases f (_where (mapA isnanV a) (scalarA iv) a) axis keepdims initial where_ <;> rfl

/-- Pointwise value of an overwrite select of same-shaped condition and source. -/
theorem where_overwrite_get {α : Type} [Inhabited α] (c : NDArray Bool) (v : α)
    (y : NDArray α) (s : List Nat) (hc : c.shape = s) (hy : y.shape = s)
    {oidx : List Nat} (ho : oidx ∈ allIndices s) :
    (_where c (scalarA v) y).get oidx = if c.get oidx then v else y.get oidx := by
  have hsh : broadcastShapes c.shape
      (broadcastShapes (scalarA v : NDArray α).shape y.shape) = s := by
    show broadcastShapes c.shape (broadcastShapes [] y.shape) = s
    rw [bshape_nil_left, hc, hy, bshape_self]
  unfold _where
  rw [get_ofFun _ _ (by rw [hsh]; exact ho)]
  rw [bget_scalarA, bget_self c (by rw [hc]; exact ho), bget_self y (by rw [hy]; exact ho)]

/-- C9: for nanmin/nanmax, the all-NaN-to-NaN overwrite happens only when no
`initial` is given: with an `initial`, the call is exactly the plain min/max
of the infinity-replaced values with `initial` combined, so an all-NaN slice
yields `initial` itself rather than NaN. -/
theorem claim_C9_initial_suppresses_nan (a : NDArray Val) (i : NDArray Val)
    (axis : Option (List Int)) (keepdims : Bool) (where_ : Option (NDArray Bool))
    (v : Val) (dims : List Nat) (oidx : List Nat)
    (hwf : Wf a) (h : _reduction_dims a.shape.length axis = .ok dims)
    (hoidx : oidx ∈ allIndices (removeDims a.shape dims))
    (hnan : ∀ x ∈ sliceList a dims oidx, x = Val.nan) :
    (nanmin a axis keepdims (some i) where_ =
      _reduce_min (_where (mapA isnanV a) (scalarA Val.posInf) a)
        axis keepdims (some i) where_) ∧
    (nanmax a axis keepdims (some i) where_ =
      _reduce_max (_where (mapA isnanV a) (scalarA Val.negInf) a)
        axis keepdims (some i) where_) ∧
    (∃ r, nanmin a axis false (some (scalarA v)) none = .ok r ∧ r.get oidx = v) ∧
    (∃ r, nanmax a axis false (some (scalarA v)) none = .ok r ∧ r.get oidx = v) := by
  refine ⟨_nan_reduction_with_initial a _reduce_min Val.posInf i axis keepdims where_,
    _nan_reduction_with_initial a _reduce_max Val.negInf i axis keepdims where_,
    ?_, ?_⟩
  · -- nanmin: all-NaN slice becomes all +inf, which min leaves at +inf
    have hW := where_isnan_eq_mapA a Val.posInf hwf
    have hcall : nanmin a axis false (some (scalarA v)) none =
        _reduce_min (mapA (fun w => if isnanV w then Val.posInf else w) a)
          axis false (some (scalarA v)) none := by
      rw [nanmin, _nan_reduction_with_initial, hW]
    have hu := _reduction_unfold
      (mapA (fun w => if isnanV w then Val.posInf else w) a) "min" minV Val.posInf
      false axis false (some (scalarA v)) none dims h
    rw [hcall]
    unfold _reduce_min
    rw [hu, if_neg (by simp), if_neg (by simp)]
    refine ⟨_, rfl, ?_⟩
    simp only [Bool.false_eq_true, if_false]
    have hflt : flatIndex
        (reduceArr (mapA (fun w => if isnanV w then Val.posInf else w) a)
          Val.posInf minV dims).shape oidx <
        (reduceArr (mapA (fun w => if isnanV w then Val.posInf else w) a)
          Val.posInf minV dims).data.length := by
      obtain ⟨j, hj, _, hfl⟩ := flatIndex_of_mem hoidx
      show flatIndex (removeDims a.shape dims) oidx < ((allIndices _).map _).length
      rw [hfl, List.length_map]
      exact hj
    rw [get_mapA _ _ _ hflt,
      get_reduceArr_sliceList (mapA (fun w => if isnanV w then Val.posInf else w) a)
        Val.posInf minV dims hoidx,
      sliceList_mapA _ (by decide) a dims oidx]
    have hfix : ∀ y ∈ (sliceList a dims oidx).map
        (fun w => if isnanV w then Val.posInf else w), ∀ acc, minV acc y = acc := by
      intro y hy acc
      obtain ⟨x, hx, hxy⟩ := List.mem_map.mp hy
      rw [← hxy, hnan x hx]
      exact minV_posInf_right acc
    rw [foldl_right_fixed minV _ Val.posInf hfix]
    exact minV_posInf_right v
  · -- nanmax symmetric with -inf
    have hW := where_isnan_eq_mapA a Val.negInf hwf
    have hcall : nanmax a axis false (some (scalarA v)) none =
        _reduce_max (mapA (fun w => if isnanV w then Val.negInf else w) a)
          axis false (some (scalarA v)) none := by
      rw [nanmax, _nan_reduction_with_initial, hW]
    have hu := _reduction_unfold
      (mapA (fun w => if isnanV w then Val.negInf else w) a) "max" maxV Val.negInf
      false axis false (some (scalarA v)) none dims h
    rw [hcall]
    unfold _reduce_max
    rw [hu, if_neg (by simp), if_neg (by simp)]
    refine ⟨_, rfl, ?_⟩
    simp only [Bool.false_eq_true, if_false]
    have hflt : flatIndex
        (reduceArr (mapA (fun w => if isnanV w then Val.negInf else w) a)
          Val.negInf maxV dims).shape oidx <
        (reduceArr (mapA (fun w => if isnanV w then Val.negInf else w) a)
          Val.negInf maxV dims).data.length := by
      obtain ⟨j, hj, _, hfl⟩ := flatIndex_of_mem hoidx
      show flatIndex (removeDims a.shape dims) oidx < ((allIndices _).map _).length
      rw [hfl, List.length_map]
      exact hj
    rw [get_mapA _ _ _ hflt,
      get_reduceArr_sliceList (mapA (fun w => if isnanV w then Val.negInf else w) a)
        Val.negInf maxV dims hoidx,
      sliceList_mapA _ (by decide) a dims oidx]
    have hfix : ∀ y ∈ (sliceList a dims oidx).map
        (fun w => if isnanV w then Val.negInf else w), ∀ acc, maxV acc y = acc := by
      intro y hy acc
      obtain ⟨x, hx, hxy⟩ := List.mem_map.mp hy
      rw [← hxy, hnan x hx]
      exact maxV_negInf_right acc
    rw [foldl_right_fixed maxV _ Val.negInf hfix]
    exact maxV_negInf_right v


/-- True exactly on NaN. -/
theorem isnanV_eq_true {x : Val} : isnanV x = true ↔ x = Val.nan := by
  cases x <;> simp [isnanV]

/-- Minimum over the non-NaN elements of a slice. -/
def minNonNaN (l : List Val) : Val :=
  (l.filter (fun v => !(isnanV v))).foldl minV Val.posInf

/-- Maximum over the non-NaN elements of a slice. -/
def maxNonNaN (l : List Val) : Val :=
  (l.filter (fun v => !(isnanV v))).foldl maxV Val.negInf

/-- C5: `nansum`/`nanprod` are the plain sum/product with NaN elements
replaced by 0 resp. 1 (so an all-NaN slice yields the identity, not NaN),
while `nanmin`/`nanmax` reduce over the non-NaN elements of each slice and
yield NaN on a slice whose reduced elements are all NaN. -/
theorem claim_C5_nan_semantics (a : NDArray Val) (axis : Option (List Int))
    (keepdims : Bool) (dims oidx : List Nat)
    (hwf : Wf a) (h : _reduction_dims a.shape.length axis = .ok dims)
    (hsz : ∀ d ∈ dims, 1 ≤ a.shape.getD d 0)
    (hoidx : oidx ∈ allIndices (removeDims a.shape dims)) :
    (nansum a axis keepdims none none =
      _reduce_sum (mapA (fun w => if isnanV w then Val.num 0 else w) a)
        axis keepdims none none) ∧
    (nanprod a axis keepdims none none =
      _reduce_prod (mapA (fun w => if isnanV w then Val.num 1 else w) a)
        axis keepdims none none) ∧
    ((∀ x ∈ sliceList a dims oidx, x = Val.nan) →
      (∃ r, nansum a axis false none none = .ok r ∧ r.get oidx = Val.num 0) ∧
      (∃ r, nanprod a axis false none none = .ok r ∧ r.get oidx = Val.num 1) ∧
      (∃ r, nanmin a axis false none none = .ok r ∧ r.get oidx = Val.nan) ∧
      (∃ r, nanmax a axis false none none = .ok r ∧ r.get oidx = Val.nan)) ∧
    ((∃ x ∈ sliceList a dims oidx, x ≠ Val.nan) →
      (∃ r, nanmin a axis false none none = .ok r ∧
        r.get oidx = minNonNaN (sliceList a dims oidx)) ∧
      (∃ r, nanmax a axis false none none = .ok r ∧
        r.get oidx = maxNonNaN (sliceList a dims oidx))) := by
  have hallMin : (dims.all fun d => decide
      (1 ≤ (mapA (fun w => if isnanV w then Val.posInf else w) a).shape.getD d 0)) = true :=
    List.all_eq_true.mpr (fun d hd => decide_eq_true (hsz d hd))
  have hallMax : (dims.all fun d => decide
      (1 ≤ (mapA (fun w => if isnanV w then Val.negInf else w) a).shape.getD d 0)) = true :=
    List.all_eq_true.mpr (fun d hd => decide_eq_true (hsz d hd))
  -- the four base reductions of the NaN-replaced array, evaluated
  have hsum : nansum a axis false none none =
      .ok (reduceArr (mapA (fun w => if isnanV w then Val.num 0 else w) a)
        (Val.num 0) addV dims) := by
    rw [nansum, _nan_reduction_no_flag, where_isnan_eq_mapA a _ hwf]
    unfold _reduce_sum
    rw [_reduction_unfold (mapA (fun w => if isnanV w then Val.num 0 else w) a)
      "sum" addV (Val.num 0) true axis false none none dims h,
      if_neg (by simp), if_neg (by simp)]
    rfl
  have hprod : nanprod a axis false none none =
      .ok (reduceArr (mapA (fun w => if isnanV w then Val.num 1 else w) a)
        (Val.num 1) mulV dims) := by
    rw [nanprod, _nan_reduction_no_flag, where_isnan_eq_mapA a _ hwf]
    unfold _reduce_prod
    rw [_reduction_unfold (mapA (fun w => if isnanV w then Val.num 1 else w) a)
      "prod" mulV (Val.num 1) true axis false none none dims h,
      if_neg (by simp), if_neg (by simp)]
    rfl
  have e1min : _reduce_min (_where (mapA isnanV a) (scalarA Val.posInf) a)
      axis false none none =
      .ok (reduceArr (mapA (fun w => if isnanV w then Val.posInf else w) a)
        Val.posInf minV dims) := by
    rw [where_isnan_eq_mapA a _ hwf]
    unfold _reduce_min
    rw [_reduction_unfold (mapA (fun w => if isnanV w then Val.posInf else w) a)
      "min" minV Val.posInf false axis false none none dims h,
      if_neg (by simp), if_neg (by rw [hallMin]; simp)]
    rfl
  have e1max : _reduce_max (_where (mapA isnanV a) (scalarA Val.negInf) a)
      axis false none none =
      .ok (reduceArr (mapA (fun w => if isnanV w then Val.negInf else w) a)
        Val.negInf maxV dims) := by
    rw [where_isnan_eq_mapA a _ hwf]
    unfold _reduce_max
    rw [_reduction_unfold (mapA (fun w => if isnanV w then Val.negInf else w) a)
      "max" maxV Val.negInf false axis false none none dims h,
      if_neg (by simp), if_neg (by rw [hallMax]; simp)]
    rfl
  have e2all : _reduce_all (mapA isnanV a) axis false none =
      .ok (reduceArr (mapA isnanV a) true and dims) := by
    unfold _reduce_all
    rw [_reduction_unfold (mapA isnanV a) "all" and true true axis false none none dims h,
      if_neg (by simp), if_neg (by simp)]
    rfl
  have hmin : nanmin a axis false none none =
      .ok (_where (reduceArr (mapA isnanV a) true and dims) (scalarA Val.nan)
        (reduceArr (mapA (fun w => if isnanV w then Val.posInf else w) a)
          Val.posInf minV dims)) := by
    rw [nanmin]
    unfold _nan_reduction
    rw [e1min, e2all]
    rfl
  have hmax : nanmax a axis false none none =
      .ok (_where (reduceArr (mapA isnanV a) true and dims) (scalarA Val.nan)
        (reduceArr (mapA (fun w => if isnanV w then Val.negInf else w) a)
          Val.negInf maxV dims)) := by
    rw [nanmax]
    unfold _nan_reduction
    rw [e1max, e2all]
    rfl
  -- pointwise values of the pieces
  have hallget : (reduceArr (mapA isnanV a) true and dims).get oidx =
      ((sliceList a dims oidx).map isnanV).all (fun x => x) := by
    rw [get_reduceArr_sliceList (mapA isnanV a) true and dims hoidx,
      sliceList_mapA isnanV (by decide) a dims oidx, foldl_and_eq, Bool.true_and]
  have houtmin : (reduceArr (mapA (fun w => if isnanV w then Val.posInf else w) a)
      Val.posInf minV dims).get oidx =
      ((sliceList a dims oidx).map (fun w => if isnanV w then Val.posInf else w)).foldl
        minV Val.posInf := by
    rw [get_reduceArr_sliceList (mapA (fun w => if isnanV w then Val.posInf else w) a)
      Val.posInf minV dims hoidx,
      sliceList_mapA _ (by decide) a dims oidx]
  have houtmax : (reduceArr (mapA (fun w => if isnanV w then Val.negInf else w) a)
      Val.negInf maxV dims).get oidx =
      ((sliceList a dims oidx).map (fun w => if isnanV w then Val.negInf else w)).foldl
        maxV Val.negInf := by
    rw [get_reduceArr_sliceList (mapA (fun w => if isnanV w then Val.negInf else w) a)
      Val.negInf maxV dims hoidx,
      sliceList_mapA _ (by decide) a dims oidx]
  have hminget := where_overwrite_get (reduceArr (mapA isnanV a) true and dims) Val.nan
    (reduceArr (mapA (fun w => if isnanV w then Val.posInf else w) a) Val.posInf minV dims)
    (removeDims a.shape dims) rfl rfl hoidx
  have hmaxget := where_overwrite_get (reduceArr (mapA isnanV a) true and dims) Val.nan
    (reduceArr (mapA (fun w => if isnanV w then Val.negInf else w) a) Val.negInf maxV dims)
    (removeDims a.shape dims) rfl rfl hoidx
  refine ⟨?_, ?_, ?_, ?_⟩
  · rw [nansum, _nan_reduction_no_flag, where_isnan_eq_mapA a _ hwf]
  · rw [nanprod, _nan_reduction_no_flag, where_isnan_eq_mapA a _ hwf]
  · intro hnan
    have hA : ((sliceList a dims oidx).map isnanV).all (fun x => x) = true :=
      List.all_eq_true.mpr (fun y hy => by
        obtain ⟨x, hx, hxy⟩ := List.mem_map.mp hy
        rw [← hxy, hnan x hx]
        rfl)
    refine ⟨⟨_, hsum, ?_⟩, ⟨_, hprod, ?_⟩, ⟨_, hmin, ?_⟩, ⟨_, hmax, ?_⟩⟩
    · rw [get_reduceArr_sliceList (mapA (fun w => if isnanV w then Val.num 0 else w) a)
        (Val.num 0) addV dims hoidx, sliceList_mapA _ (by decide) a dims oidx]
      refine foldl_right_fixed addV _ (Val.num 0) (fun y hy acc => ?_)
      obtain ⟨x, hx, hxy⟩ := List.mem_map.mp hy
      rw [← hxy, hnan x hx]
      exact addV_zero_right acc
    · rw [get_reduceArr_sliceList (mapA (fun w => if isnanV w then Val.num 1 else w) a)
        (Val.num 1) mulV dims hoidx, sliceList_mapA _ (by decide) a dims oidx]
      refine foldl_right_fixed mulV _ (Val.num 1) (fun y hy acc => ?_)
      obtain ⟨x, hx, hxy⟩ := List.mem_map.mp hy
      rw [← hxy, hnan x hx]
      exact mulV_one_right acc
    · rw [hminget, hallget, hA, if_pos rfl]
    · rw [hmaxget, hallget, hA, if_pos rfl]
  · rintro ⟨x, hx, hxnan⟩
    have hA : ((sliceList a dims oidx).map isnanV).all (fun x => x) = false :=
      List.all_eq_false.mpr ⟨isnanV x, List.mem_map.mpr ⟨x, hx, rfl⟩, by
        intro hc
        exact hxnan (isnanV_eq_true.mp hc)⟩
    constructor
    · refine ⟨_, hmin, ?_⟩
      rw [hminget, hallget, hA, if_neg (by simp), houtmin,
        foldl_map_replace minV Val.posInf minV_posInf_right]
      rfl
    · refine ⟨_, hmax, ?_⟩
      rw [hmaxget, hallget, hA, if_neg (by simp), houtmax,
        foldl_map_replace maxV Val.negInf maxV_negInf_right]
      rfl


/-! ### Axis bookkeeping and merge lemmas -/

theorem canonicalizeAxis_lt {x : Int} {rank d : Nat}
    (h : canonicalizeAxis x rank = .ok d) : d < rank := by
  unfold canonicalizeAxis at h
  split at h
  · rename_i hc
    cases h
    omega
  · split at h
    · rename_i hc hc2
      cases h
      omega
    · cases h

theorem canonListAxes_lt (rank : Nat) : ∀ (ax : List Int) (ds : List Nat),
    canonListAxes rank ax = .ok ds → ∀ d ∈ ds, d < rank := by
  intro ax
  induction ax with
  | nil =>
    intro ds h d hd
    cases h
    simp at hd
  | cons x xs ih =>
    intro ds h d hd
    unfold canonListAxes at h
    split at h
    · rename_i d1 ds1 heq1 heq2
      cases h
      rcases List.mem_cons.mp hd with hd1 | hd1
      · subst hd1
        exact canonicalizeAxis_lt heq1
      · exact ih ds1 heq2 d hd1
    · cases h
    · cases h

theorem _reduction_dims_spec {rank : Nat} {axis : Option (List Int)} {dims : List Nat}
    (h : _reduction_dims rank axis = .ok dims) :
    dims.Nodup ∧ ∀ d ∈ dims, d < rank := by
  cases axis with
  | none =>
    have h2 : (Except.ok (List.range rank) : Except String (List Nat)) = Except.ok dims := h
    cases h2
    exact ⟨List.nodup_range rank, fun d hd => List.mem_range.mp hd⟩
  | some ax =>
    have h2 : (match canonListAxes rank ax with
      | Except.error e => Except.error e
      | Except.ok canon =>
        if canon.dedup.length ≠ canon.length then Except.error duplicateAxisMsg
        else Except.ok canon) = Except.ok dims := h
    revert h2
    cases hca : canonListAxes rank ax with
    | error e =>
      intro h2
      exact absurd h2 (by simp)
    | ok canon =>
      intro h2
      have h3 : (if canon.dedup.length ≠ canon.length then
          (Except.error duplicateAxisMsg : Except String (List Nat))
        else Except.ok canon) = Except.ok dims := h2
      by_cases hdup : canon.dedup.length ≠ canon.length
      · rw [if_pos hdup] at h3
        exact absurd h3 (by simp)
      · rw [if_neg hdup] at h3
        cases h3
        refine ⟨?_, canonListAxes_lt rank ax dims hca⟩
        have hsub := List.dedup_sublist dims
        have heq := List.Sublist.eq_of_length hsub (by omega)
        rw [← heq]
        exact List.nodup_dedup dims

theorem length_selectDims {s : List Nat} {dims : List Nat}
    (hnd : dims.Nodup) (hb : ∀ d ∈ dims, d < s.length) :
    (selectDims s dims).length = dims.length := by
  unfold selectDims
  rw [List.length_map]
  have hperm : List.Perm ((List.range s.length).filter (fun k => decide (k ∈ dims)))
      dims := by
    rw [List.perm_ext_iff_of_nodup (List.Nodup.filter _ (List.nodup_range _)) hnd]
    intro k
    simp only [List.mem_filter, List.mem_range, decide_eq_true_eq]
    exact ⟨fun hk => hk.2, fun hk => ⟨hb k hk, hk⟩⟩
  have h2 : ((List.map Prod.fst s.enum).filter (fun k => decide (k ∈ dims))).length =
      dims.length := by
    rw [List.enum_map_fst]
    exact hperm.length_eq
  rw [List.filter_map, List.length_map] at h2
  exact h2

theorem length_removeDims_add {s : List Nat} {dims : List Nat}
    (hnd : dims.Nodup) (hb : ∀ d ∈ dims, d < s.length) :
    (removeDims s dims).length + dims.length = s.length := by
  have hsel := length_selectDims hnd hb
  unfold selectDims at hsel
  rw [List.length_map] at hsel
  have hsplit := List.length_eq_length_filter_add
    (l := s.enum) (fun p => decide (p.1 ∈ dims))
  have hneg : s.enum.filter (fun a => !(fun p => decide (p.1 ∈ dims)) a) =
      s.enum.filter (fun p => decide (¬ p.1 ∈ dims)) := by
    refine List.filter_congr (fun p _ => ?_)
    simp [decide_not]
  rw [hneg] at hsplit
  unfold removeDims
  rw [List.length_map]
  rw [List.enum_length] at hsplit
  omega

theorem mergeFrom_succ (dims : List Nat) (pos n : Nat) (outer inner : List Nat) :
    mergeFrom dims pos (n + 1) outer inner =
      if pos ∈ dims then inner.headD 0 :: mergeFrom dims (pos + 1) n outer (inner.drop 1)
      else outer.headD 0 :: mergeFrom dims (pos + 1) n (outer.drop 1) inner := by
  rfl

theorem insertOnesFrom_succ (dims : List Nat) (pos n : Nat) (rest : List Nat) :
    insertOnesFrom dims pos (n + 1) rest =
      if pos ∈ dims then 1 :: insertOnesFrom dims (pos + 1) n rest
      else rest.headD 1 :: insertOnesFrom dims (pos + 1) n (rest.drop 1) := by
  rfl

theorem mergeFrom_forall_lt (dims : List Nat) :
    ∀ (s : List Nat) (pos : Nat) (outer inner : List Nat),
    List.Forall₂ (fun i d => i < d) outer
      (((List.enumFrom pos s).filter (fun p => decide (¬ p.1 ∈ dims))).map (fun p => p.2)) →
    List.Forall₂ (fun i d => i < d) inner
      (((List.enumFrom pos s).filter (fun p => decide (p.1 ∈ dims))).map (fun p => p.2)) →
    List.Forall₂ (fun i d => i < d) (mergeFrom dims pos s.length outer inner) s := by
  intro s
  induction s with
  | nil =>
    intro pos outer inner ho hi
    exact List.Forall₂.nil
  | cons d ds ih =>
    intro pos outer inner ho hi
    rw [show List.enumFrom pos (d :: ds) = (pos, d) :: List.enumFrom (pos + 1) ds
      from rfl] at ho hi
    rw [List.filter_cons] at ho
    rw [List.filter_cons] at hi
    rw [show (d :: ds).length = ds.length + 1 from rfl, mergeFrom_succ]
    by_cases hpos : pos ∈ dims
    · have c1 : decide ((pos, d).1 ∈ dims) = true := decide_eq_true hpos
      have c2 : decide (¬ (pos, d).1 ∈ dims) = false :=
        decide_eq_false (by simpa using hpos)
      rw [c2] at ho
      rw [c1] at hi
      rw [if_neg (by simp)] at ho
      rw [if_pos rfl, List.map_cons] at hi
      rw [if_pos hpos]
      cases hi with
      | cons hid htl =>
        rename_i i is
        exact List.Forall₂.cons hid (ih (pos + 1) outer is ho htl)
    · have c1 : decide ((pos, d).1 ∈ dims) = false := decide_eq_false hpos
      have c2 : decide (¬ (pos, d).1 ∈ dims) = true :=
        decide_eq_true (by simpa using hpos)
      rw [c1] at hi
      rw [c2] at ho
      rw [if_neg (by simp)] at hi
      rw [if_pos rfl, List.map_cons] at ho
      rw [if_neg hpos]
      cases ho with
      | cons hid htl =>
        rename_i i is
        exact List.Forall₂.cons hid (ih (pos + 1) is inner htl hi)

theorem mergeIdx_mem {s dims : List Nat} {oidx ridx : List Nat}
    (ho : oidx ∈ allIndices (removeDims s dims))
    (hr : ridx ∈ allIndices (selectDims s dims)) :
    mergeIdx dims s.length oidx ridx ∈ allIndices s := by
  rw [mem_allIndices] at ho hr ⊢
  exact mergeFrom_forall_lt dims s 0 oidx ridx ho hr

theorem insertOnesFrom_forall (dims : List Nat) :
    ∀ (s : List Nat) (pos : Nat),
    List.Forall₂ (fun b a => b = 1 ∨ b = a)
      (insertOnesFrom dims pos s.length
        (((List.enumFrom pos s).filter (fun p => decide (¬ p.1 ∈ dims))).map (fun p => p.2)))
      s := by
  intro s
  induction s with
  | nil =>
    intro pos
    exact List.Forall₂.nil
  | cons d ds ih =>
    intro pos
    rw [show List.enumFrom pos (d :: ds) = (pos, d) :: List.enumFrom (pos + 1) ds
      from rfl, List.filter_cons]
    rw [show (d :: ds).length = ds.length + 1 from rfl, insertOnesFrom_succ]
    by_cases hpos : pos ∈ dims
    · have c2 : decide (¬ (pos, d).1 ∈ dims) = false :=
        decide_eq_false (by simpa using hpos)
      rw [if_pos hpos, c2, if_neg (by simp)]
      exact List.Forall₂.cons (Or.inl rfl) (ih (pos + 1))
    · have c2 : decide (¬ (pos, d).1 ∈ dims) = true :=
        decide_eq_true (by simpa using hpos)
      rw [c2, if_pos rfl, List.map_cons, if_neg hpos]
      exact List.Forall₂.cons (Or.inr rfl) (ih (pos + 1))

theorem insertOnes_removeDims_forall {s dims : List Nat}
    (hlen : (removeDims s dims).length + dims.length = s.length) :
    List.Forall₂ (fun b a => b = 1 ∨ b = a) (insertOnes (removeDims s dims) dims) s := by
  unfold insertOnes
  rw [hlen]
  exact insertOnesFrom_forall dims s 0

theorem zipWith_absorb : ∀ {s t : List Nat},
    List.Forall₂ (fun b a => b = 1 ∨ b = a) t s →
    List.zipWith (fun a b => if a = 1 then b else a) s t = s := by
  intro s t h
  induction h with
  | nil => rfl
  | cons hba htl ih =>
    rename_i b a bs as
    simp only [List.zipWith_cons_cons, ih]
    rcases hba with hb | hb
    · subst hb
      by_cases ha : a = 1 <;> simp [ha]
    · subst hb
      by_cases ha : b = 1 <;> simp [ha]

theorem bshape_absorb {s t : List Nat}
    (h : List.Forall₂ (fun b a => b = 1 ∨ b = a) t s) :
    broadcastShapes s t = s := by
  have hlen : t.length = s.length := h.length_eq
  unfold broadcastShapes
  simp only [hlen, Nat.max_self, Nat.sub_self, List.replicate_zero, List.nil_append]
  exact zipWith_absorb h

/-! ### Well-formedness and slice evaluation under maps -/

theorem Wf_reduceArr {α : Type} [Inhabited α] (x : NDArray α) (init : α)
    (op : α → α → α) (dims : List Nat) : Wf (reduceArr x init op dims) := by
  unfold Wf reduceArr ofFun
  rw [List.length_map, length_allIndices]

theorem Wf_mapA {α β : Type} (f : α → β) {x : NDArray α} (h : Wf x) : Wf (mapA f x) := by
  unfold Wf at h ⊢
  unfold mapA
  simpa using h

theorem get_mapA_wf {α β : Type} [Inhabited α] [Inhabited β] (f : α → β) (x : NDArray α)
    (hwf : Wf x) {idx : List Nat} (h : idx ∈ allIndices x.shape) :
    (mapA f x).get idx = f (x.get idx) := by
  apply get_mapA
  obtain ⟨j, hj, _, hfl⟩ := flatIndex_of_mem h
  rw [hfl, hwf, ← length_allIndices]
  exact hj

theorem sliceList_mapA_wf {α β : Type} [Inhabited α] [Inhabited β] (f : α → β)
    (x : NDArray α) (hwf : Wf x) (dims oidx : List Nat)
    (ho : oidx ∈ allIndices (removeDims x.shape dims)) :
    sliceList (mapA f x) dims oidx = (sliceList x dims oidx).map f := by
  unfold sliceList
  rw [shape_mapA, List.map_map]
  refine List.map_congr_left (fun ridx hr => ?_)
  exact get_mapA_wf f x hwf (mergeIdx_mem ho hr)

theorem mapA_mapA {α β γ : Type} (f : β → γ) (g : α → β) (x : NDArray α) :
    mapA f (mapA g x) = mapA (fun v => f (g v)) x := by
  cases x
  simp [mapA]

/-- Pointwise value of a select with a scalar condition. -/
theorem where_scalar_cond_get {α : Type} [Inhabited α] (b : Bool) (v : α)
    (y : NDArray α) (s : List Nat) (hy : y.shape = s) {oidx : List Nat}
    (ho : oidx ∈ allIndices s) :
    (_where (scalarA b) (scalarA v) y).get oidx = if b then v else y.get oidx := by
  have hsh : broadcastShapes (scalarA b).shape
      (broadcastShapes (scalarA v : NDArray α).shape y.shape) = s := by
    show broadcastShapes [] (broadcastShapes [] y.shape) = s
    rw [bshape_nil_left, bshape_nil_left, hy]
  unfold _where
  rw [get_ofFun _ _ (by rw [hsh]; exact ho)]
  rw [bget_scalarA, bget_scalarA, bget_self y (by rw [hy]; exact ho)]

/-- Pointwise value of a broadcast binary op against a scalar right operand. -/
theorem zipB_scalar_right_get (f : Val → Val → Val) (x : NDArray Val) (w : Val)
    (s : List Nat) (hx : x.shape = s) {oidx : List Nat} (ho : oidx ∈ allIndices s) :
    (zipB f x (scalarA w)).get oidx = f (x.get oidx) w := by
  have hsh : broadcastShapes x.shape (scalarA w : NDArray Val).shape = s := by
    show broadcastShapes x.shape [] = s
    rw [bshape_nil_right, hx]
  unfold zipB
  rw [get_ofFun _ _ (by rw [hsh]; exact ho)]
  rw [bget_scalarA, bget_self x (by rw [hx]; exact ho)]

/-- Pointwise value of a select with a scalar condition and scalar else-value. -/
theorem where_scalar_cond_else_get {α : Type} [Inhabited α] (b : Bool) (x : NDArray α)
    (v : α) (s : List Nat) (hx : x.shape = s) {oidx : List Nat}
    (ho : oidx ∈ allIndices s) :
    (_where (scalarA b) x (scalarA v)).get oidx = if b then x.get oidx else v := by
  have hsh : broadcastShapes (scalarA b).shape
      (broadcastShapes x.shape (scalarA v : NDArray α).shape) = s := by
    show broadcastShapes [] (broadcastShapes x.shape []) = s
    rw [bshape_nil_left, bshape_nil_right, hx]
  unfold _where
  rw [get_ofFun _ _ (by rw [hsh]; exact ho)]
  rw [bget_scalarA, bget_scalarA, bget_self x (by rw [hx]; exact ho)]

/-- Pointwise value of a broadcast binary op on two same-shaped arrays. -/
theorem zipB_same_shape_get (f : Val → Val → Val) (x y : NDArray Val)
    (s : List Nat) (hx : x.shape = s) (hy : y.shape = s) {oidx : List Nat}
    (ho : oidx ∈ allIndices s) :
    (zipB f x y).get oidx = f (x.get oidx) (y.get oidx) := by
  have hsh : broadcastShapes x.shape y.shape = s := by rw [hx, hy, bshape_self]
  unfold zipB
  rw [get_ofFun _ _ (by rw [hsh]; exact ho)]
  rw [bget_self x (by rw [hx]; exact ho), bget_self y (by rw [hy]; exact ho)]

/-- The plain sum reduction (no `initial`, no `where`) never fails once the
axis list resolves, and is exactly the backend reduce (re-expanded under
`keepdims`). -/
theorem _reduce_sum_plain (a : NDArray Val) (axis : Option (List Int)) (keepdims : Bool)
    {dims : List Nat} (h : _reduction_dims a.shape.length axis = .ok dims) :
    _reduce_sum a axis keepdims none none =
      .ok (if keepdims then expandDims (reduceArr a (Val.num 0) addV dims) dims
           else reduceArr a (Val.num 0) addV dims) := by
  unfold _reduce_sum
  rw [_reduction_unfold a "sum" addV (Val.num 0) true axis keepdims none none dims h]
  rfl

/-- The non-NaN-count normalizer of the nan-aggregates evaluates per output
cell to the literal count of non-NaN elements of the slice. -/
theorem count_reduce_get (a : NDArray Val) (hwf : Wf a) (dims : List Nat)
    {oidx : List Nat} (ho : oidx ∈ allIndices (removeDims a.shape dims)) :
    (reduceArr (mapA boolToVal (mapA (fun v => !(isnanV v)) a)) (Val.num 0) addV
        dims).get oidx =
      Val.num (((sliceList a dims oidx).countP (fun v => !(isnanV v)) : Nat) : Rat) := by
  rw [get_reduceArr_sliceList (mapA boolToVal (mapA (fun v => !(isnanV v)) a))
    (Val.num 0) addV dims ho, mapA_mapA]
  rw [sliceList_mapA_wf _ a hwf dims oidx ho]
  rw [show (sliceList a dims oidx).map (fun v => boolToVal (!(isnanV v))) =
      ((sliceList a dims oidx).map (fun v => !(isnanV v))).map boolToVal from by
    rw [List.map_map]; rfl]
  rw [foldl_add_boolToVal, List.countP_map]
  rw [zero_add]
  rfl

theorem Wf_ofFun {α : Type} (s : List Nat) (f : List Nat → α) : Wf (ofFun s f) := by
  unfold Wf ofFun
  rw [List.length_map, length_allIndices]

/-- The masked sum reduction (no `initial`) never fails once the axis list
resolves: the mask substitutes the identity 0 and the backend reduce runs. -/
theorem _reduce_sum_masked (a : NDArray Val) (m : NDArray Bool)
    (axis : Option (List Int)) (keepdims : Bool) {dims : List Nat}
    (h : _reduction_dims a.shape.length axis = .ok dims) :
    _reduce_sum a axis keepdims none (some m) =
      .ok (if keepdims then
          expandDims (reduceArr (_where m a (scalarA (Val.num 0))) (Val.num 0)
            addV dims) dims
        else reduceArr (_where m a (scalarA (Val.num 0))) (Val.num 0) addV dims) := by
  unfold _reduce_sum
  rw [_reduction_unfold a "sum" addV (Val.num 0) true axis keepdims none (some m) dims h]
  rfl

/-- Pointwise value of a select with array condition, array then-value and a
scalar else-value, on same-shaped condition and source. -/
theorem where_mask_get {α : Type} [Inhabited α] (c : NDArray Bool) (x : NDArray α)
    (v : α) (s : List Nat) (hc : c.shape = s) (hx : x.shape = s) {oidx : List Nat}
    (ho : oidx ∈ allIndices s) :
    (_where c x (scalarA v)).get oidx = if c.get oidx then x.get oidx else v := by
  have hsh : broadcastShapes c.shape (broadcastShapes x.shape
      (scalarA v : NDArray α).shape) = s := by
    show broadcastShapes c.shape (broadcastShapes x.shape []) = s
    rw [bshape_nil_right, hc, hx, bshape_self]
  unfold _where
  rw [get_ofFun _ _ (by rw [hsh]; exact ho)]
  rw [bget_scalarA, bget_self c (by rw [hc]; exact ho), bget_self x (by rw [hx]; exact ho)]

/-- A same-shape mask select with scalar else-value is the pointwise select
array over the common shape. -/
theorem where_mask_eq_ofFun {α : Type} [Inhabited α] (c : NDArray Bool)
    (x : NDArray α) (v : α) (s : List Nat) (hc : c.shape = s) (hx : x.shape = s) :
    _where c x (scalarA v) = ofFun s (fun idx => if c.get idx then x.get idx else v) := by
  have hsh : broadcastShapes c.shape (broadcastShapes x.shape
      (scalarA v : NDArray α).shape) = s := by
    show broadcastShapes c.shape (broadcastShapes x.shape []) = s
    rw [bshape_nil_right, hc, hx, bshape_self]
  refine ndext hsh ?_
  show (allIndices (broadcastShapes c.shape (broadcastShapes x.shape
      (scalarA v : NDArray α).shape))).map _ = (allIndices s).map _
  rw [hsh]
  refine List.map_congr_left (fun idx hidx => ?_)
  rw [bget_scalarA, bget_self c (by rw [hc]; exact hidx),
    bget_self x (by rw [hx]; exact hidx)]

/-- Per-cell value of a masked backend reduce: the fold runs over the slice
with mask-excluded positions replaced by the substituted value. -/
theorem masked_reduce_get {α : Type} [Inhabited α] (m : NDArray Bool) (x : NDArray α)
    (v init : α) (op : α → α → α) (s dims : List Nat)
    (hm : m.shape = s) (hx : x.shape = s) {oidx : List Nat}
    (ho : oidx ∈ allIndices (removeDims s dims)) :
    (reduceArr (_where m x (scalarA v)) init op dims).get oidx =
      ((allIndices (selectDims s dims)).map (fun ridx =>
        if m.get (mergeIdx dims s.length oidx ridx)
        then x.get (mergeIdx dims s.length oidx ridx) else v)).foldl op init := by
  rw [where_mask_eq_ofFun m x v s hm hx]
  rw [get_reduceArr (ofFun s (fun idx => if m.get idx then x.get idx else v))
    init op dims ho]
  refine congrArg (fun l => List.foldl op init l) ?_
  refine List.map_congr_left (fun ridx hr => ?_)
  exact get_ofFun s _ (mergeIdx_mem ho hr)

/-- The mask-count normalizer of the masked mean/variance evaluates per
output cell to the number of mask-true positions of the slice. -/
theorem broadcast_mask_count_get (m : NDArray Bool) (s dims : List Nat)
    (hm : m.shape = s) {oidx : List Nat}
    (ho : oidx ∈ allIndices (removeDims s dims)) :
    (reduceArr (mapA boolToVal (broadcastTo m s)) (Val.num 0) addV dims).get oidx =
      Val.num (((allIndices (selectDims s dims)).countP (fun ridx =>
        m.get (mergeIdx dims s.length oidx ridx)) : Nat) : Rat) := by
  rw [get_reduceArr_sliceList (mapA boolToVal (broadcastTo m s)) (Val.num 0)
    addV dims ho]
  rw [sliceList_mapA_wf boolToVal (broadcastTo m s) (Wf_ofFun s _) dims oidx ho]
  rw [show sliceList (broadcastTo m s) dims oidx =
      (allIndices (selectDims s dims)).map (fun ridx =>
        m.get (mergeIdx dims s.length oidx ridx)) from by
    unfold sliceList broadcastTo
    refine List.map_congr_left (fun ridx hr => ?_)
    exact (get_ofFun s (fun idx => m.bget idx) (mergeIdx_mem ho hr)).trans
      (bget_self m (by rw [hm]; exact mergeIdx_mem ho hr))]
  rw [foldl_add_boolToVal, zero_add, List.countP_map]
  rfl

/-- Shape of a broadcast select, by definition. -/
theorem where_shape {α : Type} [Inhabited α] (c : NDArray Bool) (x y : NDArray α) :
    (_where c x y).shape = broadcastShapes c.shape (broadcastShapes x.shape y.shape) :=
  rfl

theorem zipB_shape (f : Val → Val → Val) (x y : NDArray Val) :
    (zipB f x y).shape = broadcastShapes x.shape y.shape := rfl

theorem reduceArr_shape {α : Type} [Inhabited α] (x : NDArray α) (init : α)
    (op : α → α → α) (dims : List Nat) :
    (reduceArr x init op dims).shape = removeDims x.shape dims := rfl

theorem scalarA_shape {α : Type} (v : α) : (scalarA v : NDArray α).shape = [] := rfl

/-- Evaluation of `_var` (no mask, `keepdims = false`): the call succeeds and
each output cell is NaN when the static normalizer minus the correction is not
strictly positive, else the slice sum of squared centered values divided by
that normalizer. -/
theorem var_eval (a : NDArray Val) (axis : Option (List Int)) (corr : Rat)
    (dims : List Nat) (N : Rat)
    (h : _reduction_dims a.shape.length axis = .ok dims)
    (hN : staticNormalizer a.shape axis = .ok (scalarA (Val.num N))) :
    ∃ a_mean centered r,
      _mean a axis true none = .ok a_mean ∧
      centered = mapA squareV (zipB subV a a_mean) ∧
      _var a axis corr false none = .ok r ∧
      ∀ oidx ∈ allIndices (removeDims a.shape dims),
        r.get oidx =
          if (0 : Rat) < N - corr then
            divV ((sliceList centered dims oidx).foldl addV (Val.num 0))
              (Val.num (N - corr))
          else Val.nan := by
  obtain ⟨hnd, hb⟩ := _reduction_dims_spec h
  have hlen := length_removeDims_add hnd hb
  have habs : broadcastShapes a.shape (insertOnes (removeDims a.shape dims) dims)
      = a.shape := bshape_absorb (insertOnes_removeDims_forall hlen)
  have hS : _reduce_sum a axis true none none =
      .ok (expandDims (reduceArr a (Val.num 0) addV dims) dims) :=
    (_reduce_sum_plain a axis true h).trans rfl
  have hMv : _mean a axis true none =
      .ok (zipB divV (expandDims (reduceArr a (Val.num 0) addV dims) dims)
        (scalarA (Val.num N))) := by
    show (match staticNormalizer a.shape axis with
          | .error e => .error e
          | .ok normalizer =>
            match _reduce_sum a axis true none none with
            | .error e => .error e
            | .ok s => .ok (zipB divV s normalizer) : Except String (NDArray Val)) = _
    rw [hN, hS]
  have hCv : varCentered a axis none =
      .ok (mapA squareV (zipB subV a
        (zipB divV (expandDims (reduceArr a (Val.num 0) addV dims) dims)
          (scalarA (Val.num N))))) := by
    show (match _mean a axis true none with
          | .error e => .error e
          | .ok a_mean => .ok (mapA squareV (zipB subV a a_mean)) :
            Except String (NDArray Val)) = _
    rw [hMv]
  have hCvs : (mapA squareV (zipB subV a
      (zipB divV (expandDims (reduceArr a (Val.num 0) addV dims) dims)
        (scalarA (Val.num N))))).shape = a.shape := by
    show broadcastShapes a.shape
      (broadcastShapes (insertOnes (removeDims a.shape dims) dims) []) = a.shape
    rw [bshape_nil_right, habs]
  have hsumC : _reduce_sum (mapA squareV (zipB subV a
      (zipB divV (expandDims (reduceArr a (Val.num 0) addV dims) dims)
        (scalarA (Val.num N))))) axis false none none =
      .ok (reduceArr (mapA squareV (zipB subV a
        (zipB divV (expandDims (reduceArr a (Val.num 0) addV dims) dims)
          (scalarA (Val.num N))))) (Val.num 0) addV dims) :=
    (_reduce_sum_plain _ axis false (by rw [hCvs]; exact h)).trans rfl
  have e1 : _var a axis corr false none =
      (match _reduce_sum (mapA squareV (zipB subV a
          (zipB divV (expandDims (reduceArr a (Val.num 0) addV dims) dims)
            (scalarA (Val.num N))))) axis false none none with
       | .error e => .error e
       | .ok result =>
         .ok (_where
           (mapA gtZeroV (mapA (fun v => subV v (Val.num corr)) (scalarA (Val.num N))))
           (zipB divV result
             (mapA (fun v => subV v (Val.num corr)) (scalarA (Val.num N))))
           (scalarA Val.nan))) := by
    show (match varCentered a axis none with
          | .error e => .error e
          | .ok centered =>
            match staticNormalizer a.shape axis with
            | .error e => .error e
            | .ok normalizer0 =>
              match _reduce_sum centered axis false none none with
              | .error e => .error e
              | .ok result =>
                .ok (_where
                  (mapA gtZeroV (mapA (fun v => subV v (Val.num corr)) normalizer0))
                  (zipB divV result
                    (mapA (fun v => subV v (Val.num corr)) normalizer0))
                  (scalarA Val.nan)) : Except String (NDArray Val)) = _
    rw [hCv, hN]
  have hVv : _var a axis corr false none =
      .ok (_where
        (mapA gtZeroV (mapA (fun v => subV v (Val.num corr)) (scalarA (Val.num N))))
        (zipB divV (reduceArr (mapA squareV (zipB subV a
            (zipB divV (expandDims (reduceArr a (Val.num 0) addV dims) dims)
              (scalarA (Val.num N))))) (Val.num 0) addV dims)
          (mapA (fun v => subV v (Val.num corr)) (scalarA (Val.num N))))
        (scalarA Val.nan)) := by
    rw [e1, hsumC]
  refine ⟨_, _, _, hMv, rfl, hVv, ?_⟩
  intro oidx ho
  have hRESs : (reduceArr (mapA squareV (zipB subV a
      (zipB divV (expandDims (reduceArr a (Val.num 0) addV dims) dims)
        (scalarA (Val.num N))))) (Val.num 0) addV dims).shape =
      removeDims a.shape dims := by
    show removeDims (mapA squareV (zipB subV a
      (zipB divV (expandDims (reduceArr a (Val.num 0) addV dims) dims)
        (scalarA (Val.num N))))).shape dims = removeDims a.shape dims
    rw [hCvs]
  have hx : (zipB divV (reduceArr (mapA squareV (zipB subV a
      (zipB divV (expandDims (reduceArr a (Val.num 0) addV dims) dims)
        (scalarA (Val.num N))))) (Val.num 0) addV dims)
      (mapA (fun v => subV v (Val.num corr)) (scalarA (Val.num N)))).shape =
      removeDims a.shape dims := by
    show broadcastShapes (reduceArr (mapA squareV (zipB subV a
      (zipB divV (expandDims (reduceArr a (Val.num 0) addV dims) dims)
        (scalarA (Val.num N))))) (Val.num 0) addV dims).shape [] = removeDims a.shape dims
    rw [bshape_nil_right, hRESs]
  have hget1 : (_where
      (mapA gtZeroV (mapA (fun v => subV v (Val.num corr)) (scalarA (Val.num N))))
      (zipB divV (reduceArr (mapA squareV (zipB subV a
          (zipB divV (expandDims (reduceArr a (Val.num 0) addV dims) dims)
            (scalarA (Val.num N))))) (Val.num 0) addV dims)
        (mapA (fun v => subV v (Val.num corr)) (scalarA (Val.num N))))
      (scalarA Val.nan)).get oidx =
      if decide ((0 : Rat) < N - corr) then
        (zipB divV (reduceArr (mapA squareV (zipB subV a
            (zipB divV (expandDims (reduceArr a (Val.num 0) addV dims) dims)
              (scalarA (Val.num N))))) (Val.num 0) addV dims)
          (mapA (fun v => subV v (Val.num corr)) (scalarA (Val.num N)))).get oidx
      else Val.nan :=
    where_scalar_cond_else_get (decide ((0 : Rat) < N - corr)) _ Val.nan
      (removeDims a.shape dims) hx ho
  have hget2 : (zipB divV (reduceArr (mapA squareV (zipB subV a
      (zipB divV (expandDims (reduceArr a (Val.num 0) addV dims) dims)
        (scalarA (Val.num N))))) (Val.num 0) addV dims)
      (mapA (fun v => subV v (Val.num corr)) (scalarA (Val.num N)))).get oidx =
      divV ((reduceArr (mapA squareV (zipB subV a
        (zipB divV (expandDims (reduceArr a (Val.num 0) addV dims) dims)
          (scalarA (Val.num N))))) (Val.num 0) addV dims).get oidx)
        (Val.num (N - corr)) :=
    zipB_scalar_right_get divV _ (Val.num (N - corr)) (removeDims a.shape dims) hRESs ho
  have hget3 : (reduceArr (mapA squareV (zipB subV a
      (zipB divV (expandDims (reduceArr a (Val.num 0) addV dims) dims)
        (scalarA (Val.num N))))) (Val.num 0) addV dims).get oidx =
      (sliceList (mapA squareV (zipB subV a
        (zipB divV (expandDims (reduceArr a (Val.num 0) addV dims) dims)
          (scalarA (Val.num N))))) dims oidx).foldl addV (Val.num 0) :=
    get_reduceArr_sliceList _ _ _ dims (by rw [hCvs]; exact ho)
  rw [hget1, hget2, hget3]
  by_cases hpos : (0 : Rat) < N - corr
  · rw [if_pos (decide_eq_true hpos), if_pos hpos]
  · rw [if_neg (by simp [hpos]), if_neg hpos]

/-- Core evaluation of `nanvar` (no mask, `keepdims = false`) against an
abstract full-rank mean array: the call succeeds and each output cell is NaN
when the per-slice non-NaN count minus `ddof` is not strictly positive, else
the slice sum of the squared NaN-zeroed centered values divided by it. -/
theorem nanvar_eval_core (a : NDArray Val) (axis : Option (List Int)) (ddof : Rat)
    (dims : List Nat) (hwf : Wf a)
    (h : _reduction_dims a.shape.length axis = .ok dims)
    (AM : NDArray Val) (hMn : nanmean a axis true none = .ok AM)
    (hAMs : AM.shape = insertOnes (removeDims a.shape dims) dims) :
    ∃ centered r,
      centered = mapA squareV (_where (mapA isnanV a) (scalarA (Val.num 0))
        (zipB subV a AM)) ∧
      nanvar a axis ddof false none = .ok r ∧
      ∀ oidx ∈ allIndices (removeDims a.shape dims),
        r.get oidx =
          if (((sliceList a dims oidx).countP (fun v => !(isnanV v)) : Nat) : Rat)
              - ddof ≤ 0 then
            Val.nan
          else
            divV ((sliceList centered dims oidx).foldl addV (Val.num 0))
              (Val.num ((((sliceList a dims oidx).countP
                (fun v => !(isnanV v)) : Nat) : Rat) - ddof)) := by
  obtain ⟨hnd, hb⟩ := _reduction_dims_spec h
  have hlen := length_removeDims_add hnd hb
  have habs : broadcastShapes a.shape (insertOnes (removeDims a.shape dims) dims)
      = a.shape := bshape_absorb (insertOnes_removeDims_forall hlen)
  have hCn : nanvarCentered a axis none = .ok (mapA squareV (_where (mapA isnanV a)
      (scalarA (Val.num 0)) (zipB subV a AM))) := by
    show (match nanmean a axis true none with
          | .error e => .error e
          | .ok a_mean => .ok (mapA squareV (_where (mapA isnanV a) (scalarA (Val.num 0))
              (zipB subV a a_mean))) : Except String (NDArray Val)) = _
    rw [hMn]
  have hCns : (mapA squareV (_where (mapA isnanV a) (scalarA (Val.num 0))
      (zipB subV a AM))).shape = a.shape := by
    show broadcastShapes a.shape (broadcastShapes []
      (broadcastShapes a.shape AM.shape)) = a.shape
    rw [bshape_nil_left, hAMs, habs, bshape_self]
  have hcnt0 : _reduce_sum (mapA boolToVal (mapA (fun v => !(isnanV v)) a)) axis
      false none none =
      .ok (reduceArr (mapA boolToVal (mapA (fun v => !(isnanV v)) a)) (Val.num 0)
        addV dims) :=
    (_reduce_sum_plain (mapA boolToVal (mapA (fun v => !(isnanV v)) a)) axis
      false h).trans rfl
  have hsumn : _reduce_sum (mapA squareV (_where (mapA isnanV a) (scalarA (Val.num 0))
      (zipB subV a AM))) axis false none none =
      .ok (reduceArr (mapA squareV (_where (mapA isnanV a) (scalarA (Val.num 0))
        (zipB subV a AM))) (Val.num 0) addV dims) :=
    (_reduce_sum_plain _ axis false (by rw [hCns]; exact h)).trans rfl
  have e1n : nanvar a axis ddof false none =
      (match _reduce_sum (mapA squareV (_where (mapA isnanV a) (scalarA (Val.num 0))
          (zipB subV a AM))) axis false none none with
       | .error e => .error e
       | .ok result0 =>
         .ok (zipB divV
           (_where (mapA leZeroV (mapA (fun v => subV v (Val.num ddof))
               (reduceArr (mapA boolToVal (mapA (fun v => !(isnanV v)) a)) (Val.num 0)
                 addV dims)))
             (scalarA Val.nan) result0)
           (_where (mapA leZeroV (mapA (fun v => subV v (Val.num ddof))
               (reduceArr (mapA boolToVal (mapA (fun v => !(isnanV v)) a)) (Val.num 0)
                 addV dims)))
             (scalarA (Val.num 1))
             (mapA (fun v => subV v (Val.num ddof))
               (reduceArr (mapA boolToVal (mapA (fun v => !(isnanV v)) a)) (Val.num 0)
                 addV dims))))) := by
    show (match nanvarCentered a axis none with
          | .error e => .error e
          | .ok centered =>
            match _reduce_sum (mapA boolToVal (mapA (fun v => !(isnanV v)) a)) axis
                false none none with
            | .error e => .error e
            | .ok normalizer0 =>
              match _reduce_sum centered axis false none none with
              | .error e => .error e
              | .ok result0 =>
                .ok (zipB divV
                  (_where (mapA leZeroV (mapA (fun v => subV v (Val.num ddof))
                      normalizer0))
                    (scalarA Val.nan) result0)
                  (_where (mapA leZeroV (mapA (fun v => subV v (Val.num ddof))
                      normalizer0))
                    (scalarA (Val.num 1))
                    (mapA (fun v => subV v (Val.num ddof)) normalizer0))) :
            Except String (NDArray Val)) = _
    rw [hCn, hcnt0]
  have hVn : nanvar a axis ddof false none =
      .ok (zipB divV
        (_where (mapA leZeroV (mapA (fun v => subV v (Val.num ddof))
            (reduceArr (mapA boolToVal (mapA (fun v => !(isnanV v)) a)) (Val.num 0)
              addV dims)))
          (scalarA Val.nan)
          (reduceArr (mapA squareV (_where (mapA isnanV a) (scalarA (Val.num 0))
            (zipB subV a AM))) (Val.num 0) addV dims))
        (_where (mapA leZeroV (mapA (fun v => subV v (Val.num ddof))
            (reduceArr (mapA boolToVal (mapA (fun v => !(isnanV v)) a)) (Val.num 0)
              addV dims)))
          (scalarA (Val.num 1))
          (mapA (fun v => subV v (Val.num ddof))
            (reduceArr (mapA boolToVal (mapA (fun v => !(isnanV v)) a)) (Val.num 0)
              addV dims)))) := by
    rw [e1n, hsumn]
  refine ⟨_, _, rfl, hVn, ?_⟩
  intro oidx ho
  have hcget : (reduceArr (mapA boolToVal (mapA (fun v => !(isnanV v)) a)) (Val.num 0)
      addV dims).get oidx =
      Val.num (((sliceList a dims oidx).countP (fun v => !(isnanV v)) : Nat) : Rat) :=
    count_reduce_get a hwf dims ho
  have hNRMget : (mapA (fun v => subV v (Val.num ddof))
      (reduceArr (mapA boolToVal (mapA (fun v => !(isnanV v)) a)) (Val.num 0)
        addV dims)).get oidx =
      Val.num ((((sliceList a dims oidx).countP (fun v => !(isnanV v)) : Nat) : Rat)
        - ddof) := by
    rw [get_mapA_wf (fun v => subV v (Val.num ddof))
      (reduceArr (mapA boolToVal (mapA (fun v => !(isnanV v)) a)) (Val.num 0) addV dims)
      (Wf_reduceArr _ _ _ _) ho, hcget]
    rfl
  have hMSKget : (mapA leZeroV (mapA (fun v => subV v (Val.num ddof))
      (reduceArr (mapA boolToVal (mapA (fun v => !(isnanV v)) a)) (Val.num 0)
        addV dims))).get oidx =
      decide ((((sliceList a dims oidx).countP (fun v => !(isnanV v)) : Nat) : Rat)
        - ddof ≤ 0) := by
    rw [get_mapA_wf leZeroV
      (mapA (fun v => subV v (Val.num ddof))
        (reduceArr (mapA boolToVal (mapA (fun v => !(isnanV v)) a)) (Val.num 0) addV dims))
      (Wf_mapA _ (Wf_reduceArr _ _ _ _)) ho, hNRMget]
    rfl
  have hRESs : (reduceArr (mapA squareV (_where (mapA isnanV a) (scalarA (Val.num 0))
      (zipB subV a AM))) (Val.num 0) addV dims).shape = removeDims a.shape dims := by
    show removeDims (mapA squareV (_where (mapA isnanV a) (scalarA (Val.num 0))
      (zipB subV a AM))).shape dims = removeDims a.shape dims
    rw [hCns]
  have hres : (_where (mapA leZeroV (mapA (fun v => subV v (Val.num ddof))
      (reduceArr (mapA boolToVal (mapA (fun v => !(isnanV v)) a)) (Val.num 0)
        addV dims)))
      (scalarA Val.nan)
      (reduceArr (mapA squareV (_where (mapA isnanV a) (scalarA (Val.num 0))
        (zipB subV a AM))) (Val.num 0) addV dims)).get oidx =
      if (mapA leZeroV (mapA (fun v => subV v (Val.num ddof))
          (reduceArr (mapA boolToVal (mapA (fun v => !(isnanV v)) a)) (Val.num 0)
            addV dims))).get oidx then Val.nan
      else (reduceArr (mapA squareV (_where (mapA isnanV a) (scalarA (Val.num 0))
        (zipB subV a AM))) (Val.num 0) addV dims).get oidx :=
    where_overwrite_get _ Val.nan _ (removeDims a.shape dims) rfl hRESs ho
  have hdiv : (_where (mapA leZeroV (mapA (fun v => subV v (Val.num ddof))
      (reduceArr (mapA boolToVal (mapA (fun v => !(isnanV v)) a)) (Val.num 0)
        addV dims)))
      (scalarA (Val.num 1))
      (mapA (fun v => subV v (Val.num ddof))
        (reduceArr (mapA boolToVal (mapA (fun v => !(isnanV v)) a)) (Val.num 0)
          addV dims))).get oidx =
      if (mapA leZeroV (mapA (fun v => subV v (Val.num ddof))
          (reduceArr (mapA boolToVal (mapA (fun v => !(isnanV v)) a)) (Val.num 0)
            addV dims))).get oidx then Val.num 1
      else (mapA (fun v => subV v (Val.num ddof))
        (reduceArr (mapA boolToVal (mapA (fun v => !(isnanV v)) a)) (Val.num 0)
          addV dims)).get oidx :=
    where_overwrite_get _ (Val.num 1) _ (removeDims a.shape dims) rfl rfl ho
  have hresS : (_where (mapA leZeroV (mapA (fun v => subV v (Val.num ddof))
      (reduceArr (mapA boolToVal (mapA (fun v => !(isnanV v)) a)) (Val.num 0)
        addV dims)))
      (scalarA Val.nan)
      (reduceArr (mapA squareV (_where (mapA isnanV a) (scalarA (Val.num 0))
        (zipB subV a AM))) (Val.num 0) addV dims)).shape =
      removeDims a.shape dims := by
    show broadcastShapes (removeDims a.shape dims) (broadcastShapes []
      (removeDims (mapA squareV (_where (mapA isnanV a) (scalarA (Val.num 0))
        (zipB subV a AM))).shape dims)) = removeDims a.shape dims
    rw [bshape_nil_left, hCns, bshape_self]
  have hdivS : (_where (mapA leZeroV (mapA (fun v => subV v (Val.num ddof))
      (reduceArr (mapA boolToVal (mapA (fun v => !(isnanV v)) a)) (Val.num 0)
        addV dims)))
      (scalarA (Val.num 1))
      (mapA (fun v => subV v (Val.num ddof))
        (reduceArr (mapA boolToVal (mapA (fun v => !(isnanV v)) a)) (Val.num 0)
          addV dims))).shape = removeDims a.shape dims := by
    show broadcastShapes (removeDims a.shape dims) (broadcastShapes []
      (removeDims a.shape dims)) = removeDims a.shape dims
    rw [bshape_nil_left, bshape_self]
  have hgetRES : (reduceArr (mapA squareV (_where (mapA isnanV a) (scalarA (Val.num 0))
      (zipB subV a AM))) (Val.num 0) addV dims).get oidx =
      (sliceList (mapA squareV (_where (mapA isnanV a) (scalarA (Val.num 0))
        (zipB subV a AM))) dims oidx).foldl addV (Val.num 0) :=
    get_reduceArr_sliceList _ (Val.num 0) addV dims (by rw [hCns]; exact ho)
  rw [zipB_same_shape_get divV _ _ (removeDims a.shape dims) hresS hdivS ho]
  rw [hres, hdiv, hMSKget, hgetRES, hNRMget]
  by_cases hle : (((sliceList a dims oidx).countP (fun v => !(isnanV v)) : Nat) : Rat)
      - ddof ≤ 0
  · rw [if_pos (decide_eq_true hle), if_pos (decide_eq_true hle), if_pos hle]
    rfl
  · rw [if_neg (by simp [hle]), if_neg (by simp [hle]), if_neg hle]

/-- Evaluation of `nanvar` (no mask, `keepdims = false`): success with the
per-cell NaN/quotient alternative, at the concrete nan-aware mean array. -/
theorem nanvar_eval (a : NDArray Val) (axis : Option (List Int)) (ddof : Rat)
    (dims : List Nat) (hwf : Wf a)
    (h : _reduction_dims a.shape.length axis = .ok dims) :
    ∃ a_mean centered r,
      nanmean a axis true none = .ok a_mean ∧
      centered = mapA squareV (_where (mapA isnanV a) (scalarA (Val.num 0))
        (zipB subV a a_mean)) ∧
      nanvar a axis ddof false none = .ok r ∧
      ∀ oidx ∈ allIndices (removeDims a.shape dims),
        r.get oidx =
          if (((sliceList a dims oidx).countP (fun v => !(isnanV v)) : Nat) : Rat)
              - ddof ≤ 0 then
            Val.nan
          else
            divV ((sliceList centered dims oidx).foldl addV (Val.num 0))
              (Val.num ((((sliceList a dims oidx).countP
                (fun v => !(isnanV v)) : Nat) : Rat) - ddof)) := by
  have hA0 : _where (mapA isnanV a) (scalarA (Val.num 0)) a =
      mapA (fun w => if isnanV w then Val.num 0 else w) a :=
    where_isnan_eq_mapA a (Val.num 0) hwf
  have hns : nansum a axis true none none =
      .ok (expandDims (reduceArr (mapA (fun w => if isnanV w then Val.num 0 else w) a)
        (Val.num 0) addV dims) dims) := by
    show _nan_reduction a _reduce_sum (Val.num 0) false axis true none none = _
    rw [_nan_reduction_no_flag, hA0]
    exact (_reduce_sum_plain (mapA (fun w => if isnanV w then Val.num 0 else w) a)
      axis true h).trans rfl
  have hcntk : _reduce_sum (mapA boolToVal (mapA (fun v => !(isnanV v)) a)) axis
      true none none =
      .ok (expandDims (reduceArr (mapA boolToVal (mapA (fun v => !(isnanV v)) a))
        (Val.num 0) addV dims) dims) :=
    (_reduce_sum_plain (mapA boolToVal (mapA (fun v => !(isnanV v)) a)) axis
      true h).trans rfl
  have hMn : nanmean a axis true none =
      .ok (zipB divV
        (expandDims (reduceArr (mapA (fun w => if isnanV w then Val.num 0 else w) a)
          (Val.num 0) addV dims) dims)
        (expandDims (reduceArr (mapA boolToVal (mapA (fun v => !(isnanV v)) a))
          (Val.num 0) addV dims) dims)) := by
    show (match _reduce_sum (mapA boolToVal (mapA (fun v => !(isnanV v)) a)) axis
            true none none with
          | .error e => .error e
          | .ok normalizer =>
            match nansum a axis true none none with
            | .error e => .error e
            | .ok ns => .ok (zipB divV ns normalizer) : Except String (NDArray Val)) = _
    rw [hcntk, hns]
  have hAMs : (zipB divV
      (expandDims (reduceArr (mapA (fun w => if isnanV w then Val.num 0 else w) a)
        (Val.num 0) addV dims) dims)
      (expandDims (reduceArr (mapA boolToVal (mapA (fun v => !(isnanV v)) a))
        (Val.num 0) addV dims) dims)).shape =
      insertOnes (removeDims a.shape dims) dims := by
    show broadcastShapes (insertOnes (removeDims a.shape dims) dims)
      (insertOnes (removeDims a.shape dims) dims) = _
    exact bshape_self _
  obtain ⟨c, r, h1, h2, h3⟩ := nanvar_eval_core a axis ddof dims hwf h _ hMn hAMs
  exact ⟨_, c, r, hMn, h1, h2, h3⟩

/-- Core evaluation of `_var` under a same-shape mask (`keepdims = false`)
against an abstract full-rank mean array: the call succeeds and each output
cell is NaN when the mask count of its slice minus the correction is not
strictly positive, else the mask-restricted slice sum of squared centered
values divided by that normalizer. -/
theorem var_masked_eval_core (a : NDArray Val) (m : NDArray Bool)
    (axis : Option (List Int)) (corr : Rat) (dims : List Nat)
    (hm : m.shape = a.shape)
    (h : _reduction_dims a.shape.length axis = .ok dims)
    (AM : NDArray Val) (hMn : _mean a axis true (some m) = .ok AM)
    (hAMs : AM.shape = insertOnes (removeDims a.shape dims) dims) :
    ∃ centered r,
      centered = mapA squareV (zipB subV a AM) ∧
      _var a axis corr false (some m) = .ok r ∧
      ∀ oidx ∈ allIndices (removeDims a.shape dims),
        r.get oidx =
          if (0 : Rat) < (((allIndices (selectDims a.shape dims)).countP (fun ridx =>
              m.get (mergeIdx dims a.shape.length oidx ridx)) : Nat) : Rat) - corr then
            divV (((allIndices (selectDims a.shape dims)).map (fun ridx =>
                if m.get (mergeIdx dims a.shape.length oidx ridx)
                then centered.get (mergeIdx dims a.shape.length oidx ridx)
                else Val.num 0)).foldl addV (Val.num 0))
              (Val.num ((((allIndices (selectDims a.shape dims)).countP (fun ridx =>
                m.get (mergeIdx dims a.shape.length oidx ridx)) : Nat) : Rat) - corr))
          else Val.nan := by
  obtain ⟨hnd, hb⟩ := _reduction_dims_spec h
  have hlen := length_removeDims_add hnd hb
  have habs : broadcastShapes a.shape (insertOnes (removeDims a.shape dims) dims)
      = a.shape := bshape_absorb (insertOnes_removeDims_forall hlen)
  have hCv : varCentered a axis (some m) = .ok (mapA squareV (zipB subV a AM)) := by
    show (match _mean a axis true (some m) with
          | .error e => .error e
          | .ok a_mean => .ok (mapA squareV (zipB subV a a_mean)) :
            Except String (NDArray Val)) = _
    rw [hMn]
  have hCs : (mapA squareV (zipB subV a AM)).shape = a.shape := by
    show broadcastShapes a.shape AM.shape = a.shape
    rw [hAMs, habs]
  have hNM0 : _reduce_sum (mapA boolToVal (broadcastTo m a.shape)) axis false
      none none =
      .ok (reduceArr (mapA boolToVal (broadcastTo m a.shape)) (Val.num 0)
        addV dims) :=
    (_reduce_sum_plain (mapA boolToVal (broadcastTo m a.shape)) axis false h).trans rfl
  have hresM : _reduce_sum (mapA squareV (zipB subV a AM)) axis false none (some m) =
      .ok (reduceArr (_where m (mapA squareV (zipB subV a AM)) (scalarA (Val.num 0)))
        (Val.num 0) addV dims) :=
    (_reduce_sum_masked (mapA squareV (zipB subV a AM)) m axis false
      (by rw [hCs]; exact h)).trans rfl
  have e1 : _var a axis corr false (some m) =
      (match _reduce_sum (mapA squareV (zipB subV a AM)) axis false none (some m) with
       | .error e => .error e
       | .ok result =>
         .ok (_where (mapA gtZeroV (mapA (fun v => subV v (Val.num corr))
             (reduceArr (mapA boolToVal (broadcastTo m a.shape)) (Val.num 0)
               addV dims)))
           (zipB divV result (mapA (fun v => subV v (Val.num corr))
             (reduceArr (mapA boolToVal (broadcastTo m a.shape)) (Val.num 0)
               addV dims)))
           (scalarA Val.nan))) := by
    show (match varCentered a axis (some m) with
          | .error e => .error e
          | .ok centered =>
            match _reduce_sum (mapA boolToVal (broadcastTo m a.shape)) axis false
                none none with
            | .error e => .error e
            | .ok normalizer0 =>
              match _reduce_sum centered axis false none (some m) with
              | .error e => .error e
              | .ok result =>
                .ok (_where
                  (mapA gtZeroV (mapA (fun v => subV v (Val.num corr)) normalizer0))
                  (zipB divV result
                    (mapA (fun v => subV v (Val.num corr)) normalizer0))
                  (scalarA Val.nan)) : Except String (NDArray Val)) = _
    rw [hCv, hNM0]
  have hV : _var a axis corr false (some m) =
      .ok (_where (mapA gtZeroV (mapA (fun v => subV v (Val.num corr))
          (reduceArr (mapA boolToVal (broadcastTo m a.shape)) (Val.num 0) addV dims)))
        (zipB divV
          (reduceArr (_where m (mapA squareV (zipB subV a AM)) (scalarA (Val.num 0)))
            (Val.num 0) addV dims)
          (mapA (fun v => subV v (Val.num corr))
            (reduceArr (mapA boolToVal (broadcastTo m a.shape)) (Val.num 0) addV dims)))
        (scalarA Val.nan)) := by
    rw [e1, hresM]
  refine ⟨_, _, rfl, hV, ?_⟩
  intro oidx ho
  have hcnt : (reduceArr (mapA boolToVal (broadcastTo m a.shape)) (Val.num 0)
      addV dims).get oidx =
      Val.num (((allIndices (selectDims a.shape dims)).countP (fun ridx =>
        m.get (mergeIdx dims a.shape.length oidx ridx)) : Nat) : Rat) :=
    broadcast_mask_count_get m a.shape dims hm ho
  have hNRMget : (mapA (fun v => subV v (Val.num corr))
      (reduceArr (mapA boolToVal (broadcastTo m a.shape)) (Val.num 0)
        addV dims)).get oidx =
      Val.num ((((allIndices (selectDims a.shape dims)).countP (fun ridx =>
        m.get (mergeIdx dims a.shape.length oidx ridx)) : Nat) : Rat) - corr) := by
    rw [get_mapA_wf (fun v => subV v (Val.num corr))
      (reduceArr (mapA boolToVal (broadcastTo m a.shape)) (Val.num 0) addV dims)
      (Wf_reduceArr _ _ _ _) ho, hcnt]
    rfl
  have hcond : (mapA gtZeroV (mapA (fun v => subV v (Val.num corr))
      (reduceArr (mapA boolToVal (broadcastTo m a.shape)) (Val.num 0)
        addV dims))).get oidx =
      decide ((0 : Rat) < (((allIndices (selectDims a.shape dims)).countP (fun ridx =>
        m.get (mergeIdx dims a.shape.length oidx ridx)) : Nat) : Rat) - corr) := by
    rw [get_mapA_wf gtZeroV
      (mapA (fun v => subV v (Val.num corr))
        (reduceArr (mapA boolToVal (broadcastTo m a.shape)) (Val.num 0) addV dims))
      (Wf_mapA _ (Wf_reduceArr _ _ _ _)) ho, hNRMget]
    rfl
  have hRESs : (reduceArr (_where m (mapA squareV (zipB subV a AM))
      (scalarA (Val.num 0))) (Val.num 0) addV dims).shape =
      removeDims a.shape dims := by
    rw [reduceArr_shape, where_shape, scalarA_shape, bshape_nil_right, hCs, hm,
      bshape_self]
  have hxz : (zipB divV
      (reduceArr (_where m (mapA squareV (zipB subV a AM)) (scalarA (Val.num 0)))
        (Val.num 0) addV dims)
      (mapA (fun v => subV v (Val.num corr))
        (reduceArr (mapA boolToVal (broadcastTo m a.shape)) (Val.num 0)
          addV dims))).shape = removeDims a.shape dims := by
    rw [zipB_shape, hRESs]
    show broadcastShapes (removeDims a.shape dims) (removeDims a.shape dims) =
      removeDims a.shape dims
    exact bshape_self _
  have hget1 := where_mask_get
    (mapA gtZeroV (mapA (fun v => subV v (Val.num corr))
      (reduceArr (mapA boolToVal (broadcastTo m a.shape)) (Val.num 0) addV dims)))
    (zipB divV
      (reduceArr (_where m (mapA squareV (zipB subV a AM)) (scalarA (Val.num 0)))
        (Val.num 0) addV dims)
      (mapA (fun v => subV v (Val.num corr))
        (reduceArr (mapA boolToVal (broadcastTo m a.shape)) (Val.num 0) addV dims)))
    Val.nan (removeDims a.shape dims) rfl hxz ho
  have hget2 := zipB_same_shape_get divV
    (reduceArr (_where m (mapA squareV (zipB subV a AM)) (scalarA (Val.num 0)))
      (Val.num 0) addV dims)
    (mapA (fun v => subV v (Val.num corr))
      (reduceArr (mapA boolToVal (broadcastTo m a.shape)) (Val.num 0) addV dims))
    (removeDims a.shape dims) hRESs rfl ho
  have hget3 := masked_reduce_get m (mapA squareV (zipB subV a AM)) (Val.num 0)
    (Val.num 0) addV a.shape dims hm hCs ho
  rw [hget1, hcond, hget2, hget3, hNRMget]
  by_cases hpos : (0 : Rat) < (((allIndices (selectDims a.shape dims)).countP
      (fun ridx => m.get (mergeIdx dims a.shape.length oidx ridx)) : Nat) : Rat) - corr
  · rw [if_pos (decide_eq_true hpos), if_pos hpos]
  · rw [if_neg (by simp [hpos]), if_neg hpos]

/-- Evaluation of `_var` under a same-shape mask: success, with the masked
normalizer semantics, at the concrete masked mean array. -/
theorem var_masked_eval (a : NDArray Val) (m : NDArray Bool)
    (axis : Option (List Int)) (corr : Rat) (dims : List Nat)
    (hm : m.shape = a.shape)
    (h : _reduction_dims a.shape.length axis = .ok dims) :
    ∃ a_mean centered r,
      _mean a axis true (some m) = .ok a_mean ∧
      centered = mapA squareV (zipB subV a a_mean) ∧
      _var a axis corr false (some m) = .ok r ∧
      ∀ oidx ∈ allIndices (removeDims a.shape dims),
        r.get oidx =
          if (0 : Rat) < (((allIndices (selectDims a.shape dims)).countP (fun ridx =>
              m.get (mergeIdx dims a.shape.length oidx ridx)) : Nat) : Rat) - corr then
            divV (((allIndices (selectDims a.shape dims)).map (fun ridx =>
                if m.get (mergeIdx dims a.shape.length oidx ridx)
                then centered.get (mergeIdx dims a.shape.length oidx ridx)
                else Val.num 0)).foldl addV (Val.num 0))
              (Val.num ((((allIndices (selectDims a.shape dims)).countP (fun ridx =>
                m.get (mergeIdx dims a.shape.length oidx ridx)) : Nat) : Rat) - corr))
          else Val.nan := by
  have hSM : _reduce_sum a axis true none (some m) =
      .ok (expandDims (reduceArr (_where m a (scalarA (Val.num 0))) (Val.num 0)
        addV dims) dims) :=
    (_reduce_sum_masked a m axis true h).trans rfl
  have hNMk : _reduce_sum (mapA boolToVal (broadcastTo m a.shape)) axis true
      none none =
      .ok (expandDims (reduceArr (mapA boolToVal (broadcastTo m a.shape))
        (Val.num 0) addV dims) dims) :=
    (_reduce_sum_plain (mapA boolToVal (broadcastTo m a.shape)) axis true h).trans rfl
  have hMn : _mean a axis true (some m) =
      .ok (zipB divV
        (expandDims (reduceArr (_where m a (scalarA (Val.num 0))) (Val.num 0)
          addV dims) dims)
        (expandDims (reduceArr (mapA boolToVal (broadcastTo m a.shape))
          (Val.num 0) addV dims) dims)) := by
    show (match _reduce_sum (mapA boolToVal (broadcastTo m a.shape)) axis true
            none none with
          | .error e => .error e
          | .ok normalizer =>
            match _reduce_sum a axis true none (some m) with
            | .error e => .error e
            | .ok s => .ok (zipB divV s normalizer) : Except String (NDArray Val)) = _
    rw [hNMk, hSM]
  have hAMs : (zipB divV
      (expandDims (reduceArr (_where m a (scalarA (Val.num 0))) (Val.num 0)
        addV dims) dims)
      (expandDims (reduceArr (mapA boolToVal (broadcastTo m a.shape))
        (Val.num 0) addV dims) dims)).shape =
      insertOnes (removeDims a.shape dims) dims := by
    show broadcastShapes
      (insertOnes (removeDims (broadcastShapes m.shape (broadcastShapes a.shape []))
        dims) dims)
      (insertOnes (removeDims a.shape dims) dims) =
      insertOnes (removeDims a.shape dims) dims
    rw [bshape_nil_right, hm, bshape_self, bshape_self]
  obtain ⟨c, r, h1, h2, h3⟩ := var_masked_eval_core a m axis corr dims hm h _ hMn hAMs
  exact ⟨_, c, r, hMn, h1, h2, h3⟩

/-- Core evaluation of `nanvar` under a same-shape mask (`keepdims = false`)
against an abstract full-rank mean array: the call succeeds and each output
cell is NaN when the count of mask-included non-NaN elements of its slice
minus `ddof` is not strictly positive, else the mask-restricted slice sum of
the squared NaN-zeroed centered values divided by that normalizer. -/
theorem nanvar_masked_eval_core (a : NDArray Val) (m : NDArray Bool)
    (axis : Option (List Int)) (ddof : Rat) (dims : List Nat) (hwf : Wf a)
    (hm : m.shape = a.shape)
    (h : _reduction_dims a.shape.length axis = .ok dims)
    (AM : NDArray Val) (hMn : nanmean a axis true (some m) = .ok AM)
    (hAMs : AM.shape = insertOnes (removeDims a.shape dims) dims) :
    ∃ centered r,
      centered = mapA squareV (_where (mapA isnanV a) (scalarA (Val.num 0))
        (zipB subV a AM)) ∧
      nanvar a axis ddof false (some m) = .ok r ∧
      ∀ oidx ∈ allIndices (removeDims a.shape dims),
        r.get oidx =
          if (((allIndices (selectDims a.shape dims)).countP (fun ridx =>
              m.get (mergeIdx dims a.shape.length oidx ridx) &&
                !(isnanV (a.get (mergeIdx dims a.shape.length oidx ridx)))) :
              Nat) : Rat) - ddof ≤ 0 then
            Val.nan
          else
            divV (((allIndices (selectDims a.shape dims)).map (fun ridx =>
                if m.get (mergeIdx dims a.shape.length oidx ridx)
                then centered.get (mergeIdx dims a.shape.length oidx ridx)
                else Val.num 0)).foldl addV (Val.num 0))
              (Val.num ((((allIndices (selectDims a.shape dims)).countP (fun ridx =>
                m.get (mergeIdx dims a.shape.length oidx ridx) &&
                  !(isnanV (a.get (mergeIdx dims a.shape.length oidx ridx)))) :
                Nat) : Rat) - ddof)) := by
  obtain ⟨hnd, hb⟩ := _reduction_dims_spec h
  have hlen := length_removeDims_add hnd hb
  have habs : broadcastShapes a.shape (insertOnes (removeDims a.shape dims) dims)
      = a.shape := bshape_absorb (insertOnes_removeDims_forall hlen)
  have hWsh : broadcastShapes m.shape (broadcastShapes a.shape []) = a.shape := by
    rw [bshape_nil_right, hm, bshape_self]
  have hCn : nanvarCentered a axis (some m) = .ok (mapA squareV
      (_where (mapA isnanV a) (scalarA (Val.num 0)) (zipB subV a AM))) := by
    show (match nanmean a axis true (some m) with
          | .error e => .error e
          | .ok a_mean => .ok (mapA squareV (_where (mapA isnanV a) (scalarA (Val.num 0))
              (zipB subV a a_mean))) : Except String (NDArray Val)) = _
    rw [hMn]
  have hCns : (mapA squareV (_where (mapA isnanV a) (scalarA (Val.num 0))
      (zipB subV a AM))).shape = a.shape := by
    show broadcastShapes a.shape (broadcastShapes []
      (broadcastShapes a.shape AM.shape)) = a.shape
    rw [bshape_nil_left, hAMs, habs, bshape_self]
  have hcnt0 : _reduce_sum (mapA boolToVal (mapA (fun v => !(isnanV v)) a)) axis
      false none (some m) =
      .ok (reduceArr (_where m (mapA boolToVal (mapA (fun v => !(isnanV v)) a))
        (scalarA (Val.num 0))) (Val.num 0) addV dims) :=
    (_reduce_sum_masked (mapA boolToVal (mapA (fun v => !(isnanV v)) a)) m axis
      false h).trans rfl
  have hsumn : _reduce_sum (mapA squareV (_where (mapA isnanV a) (scalarA (Val.num 0))
      (zipB subV a AM))) axis false none (some m) =
      .ok (reduceArr (_where m (mapA squareV (_where (mapA isnanV a)
        (scalarA (Val.num 0)) (zipB subV a AM))) (scalarA (Val.num 0)))
        (Val.num 0) addV dims) :=
    (_reduce_sum_masked (mapA squareV (_where (mapA isnanV a) (scalarA (Val.num 0))
      (zipB subV a AM))) m axis false (by rw [hCns]; exact h)).trans rfl
  have e1n : nanvar a axis ddof false (some m) =
      (match _reduce_sum (mapA squareV (_where (mapA isnanV a) (scalarA (Val.num 0))
          (zipB subV a AM))) axis false none (some m) with
       | .error e => .error e
       | .ok result0 =>
         .ok (zipB divV
           (_where (mapA leZeroV (mapA (fun v => subV v (Val.num ddof))
               (reduceArr (_where m (mapA boolToVal (mapA (fun v => !(isnanV v)) a))
                 (scalarA (Val.num 0))) (Val.num 0) addV dims)))
             (scalarA Val.nan) result0)
           (_where (mapA leZeroV (mapA (fun v => subV v (Val.num ddof))
               (reduceArr (_where m (mapA boolToVal (mapA (fun v => !(isnanV v)) a))
                 (scalarA (Val.num 0))) (Val.num 0) addV dims)))
             (scalarA (Val.num 1))
             (mapA (fun v => subV v (Val.num ddof))
               (reduceArr (_where m (mapA boolToVal (mapA (fun v => !(isnanV v)) a))
                 (scalarA (Val.num 0))) (Val.num 0) addV dims))))) := by
    show (match nanvarCentered a axis (some m) with
          | .error e => .error e
          | .ok centered =>
            match _reduce_sum (mapA boolToVal (mapA (fun v => !(isnanV v)) a)) axis
                false none (some m) with
            | .error e => .error e
            | .ok normalizer0 =>
              match _reduce_sum centered axis false none (some m) with
              | .error e => .error e
              | .ok result0 =>
                .ok (zipB divV
                  (_where (mapA leZeroV (mapA (fun v => subV v (Val.num ddof))
                      normalizer0))
                    (scalarA Val.nan) result0)
                  (_where (mapA leZeroV (mapA (fun v => subV v (Val.num ddof))
                      normalizer0))
                    (scalarA (Val.num 1))
                    (mapA (fun v => subV v (Val.num ddof)) normalizer0))) :
            Except String (NDArray Val)) = _
    rw [hCn, hcnt0]
  have hVn : nanvar a axis ddof false (some m) =
      .ok (zipB divV
        (_where (mapA leZeroV (mapA (fun v => subV v (Val.num ddof))
            (reduceArr (_where m (mapA boolToVal (mapA (fun v => !(isnanV v)) a))
              (scalarA (Val.num 0))) (Val.num 0) addV dims)))
          (scalarA Val.nan)
          (reduceArr (_where m (mapA squareV (_where (mapA isnanV a)
            (scalarA (Val.num 0)) (zipB subV a AM))) (scalarA (Val.num 0)))
            (Val.num 0) addV dims))
        (_where (mapA leZeroV (mapA (fun v => subV v (Val.num ddof))
            (reduceArr (_where m (mapA boolToVal (mapA (fun v => !(isnanV v)) a))
              (scalarA (Val.num 0))) (Val.num 0) addV dims)))
          (scalarA (Val.num 1))
          (mapA (fun v => subV v (Val.num ddof))
            (reduceArr (_where m (mapA boolToVal (mapA (fun v => !(isnanV v)) a))
              (scalarA (Val.num 0))) (Val.num 0) addV dims)))) := by
    rw [e1n, hsumn]
  refine ⟨_, _, rfl, hVn, ?_⟩
  intro oidx ho
  have hCNTMs : (reduceArr (_where m (mapA boolToVal (mapA (fun v => !(isnanV v)) a))
      (scalarA (Val.num 0))) (Val.num 0) addV dims).shape =
      removeDims a.shape dims := by
    show removeDims (broadcastShapes m.shape (broadcastShapes a.shape [])) dims =
      removeDims a.shape dims
    rw [hWsh]
  have hom : oidx ∈ allIndices (reduceArr (_where m
      (mapA boolToVal (mapA (fun v => !(isnanV v)) a))
      (scalarA (Val.num 0))) (Val.num 0) addV dims).shape := by
    rw [hCNTMs]
    exact ho
  have hcget : (reduceArr (_where m (mapA boolToVal (mapA (fun v => !(isnanV v)) a))
      (scalarA (Val.num 0))) (Val.num 0) addV dims).get oidx =
      Val.num ((((allIndices (selectDims a.shape dims)).countP (fun ridx =>
        m.get (mergeIdx dims a.shape.length oidx ridx) &&
          !(isnanV (a.get (mergeIdx dims a.shape.length oidx ridx)))) :
        Nat) : Rat)) := by
    rw [masked_reduce_get m (mapA boolToVal (mapA (fun v => !(isnanV v)) a))
      (Val.num 0) (Val.num 0) addV a.shape dims hm rfl ho]
    rw [show (allIndices (selectDims a.shape dims)).map (fun ridx =>
        if m.get (mergeIdx dims a.shape.length oidx ridx)
        then (mapA boolToVal (mapA (fun v => !(isnanV v)) a)).get
          (mergeIdx dims a.shape.length oidx ridx)
        else Val.num 0) =
        ((allIndices (selectDims a.shape dims)).map (fun ridx =>
          m.get (mergeIdx dims a.shape.length oidx ridx) &&
            !(isnanV (a.get (mergeIdx dims a.shape.length oidx ridx))))).map
          boolToVal from by
      rw [List.map_map]
      refine List.map_congr_left (fun ridx hr => ?_)
      rw [show (mapA boolToVal (mapA (fun v => !(isnanV v)) a)).get
          (mergeIdx dims a.shape.length oidx ridx) =
          boolToVal (!(isnanV (a.get (mergeIdx dims a.shape.length oidx ridx))))
          from by
        rw [mapA_mapA, get_mapA_wf (fun v => boolToVal (!(isnanV v))) a hwf
          (mergeIdx_mem ho hr)]]
      rw [Function.comp_apply]
      cases hmg : m.get (mergeIdx dims a.shape.length oidx ridx) <;> rfl]
    rw [foldl_add_boolToVal, zero_add, List.countP_map]
    rfl
  have hNRMget : (mapA (fun v => subV v (Val.num ddof))
      (reduceArr (_where m (mapA boolToVal (mapA (fun v => !(isnanV v)) a))
        (scalarA (Val.num 0))) (Val.num 0) addV dims)).get oidx =
      Val.num ((((allIndices (selectDims a.shape dims)).countP (fun ridx =>
        m.get (mergeIdx dims a.shape.length oidx ridx) &&
          !(isnanV (a.get (mergeIdx dims a.shape.length oidx ridx)))) :
        Nat) : Rat) - ddof) := by
    rw [get_mapA_wf (fun v => subV v (Val.num ddof))
      (reduceArr (_where m (mapA boolToVal (mapA (fun v => !(isnanV v)) a))
        (scalarA (Val.num 0))) (Val.num 0) addV dims)
      (Wf_reduceArr _ _ _ _) hom, hcget]
    rfl
  have hMSKget : (mapA leZeroV (mapA (fun v => subV v (Val.num ddof))
      (reduceArr (_where m (mapA boolToVal (mapA (fun v => !(isnanV v)) a))
        (scalarA (Val.num 0))) (Val.num 0) addV dims))).get oidx =
      decide ((((allIndices (selectDims a.shape dims)).countP (fun ridx =>
        m.get (mergeIdx dims a.shape.length oidx ridx) &&
          !(isnanV (a.get (mergeIdx dims a.shape.length oidx ridx)))) :
        Nat) : Rat) - ddof ≤ 0) := by
    rw [get_mapA_wf leZeroV
      (mapA (fun v => subV v (Val.num ddof))
        (reduceArr (_where m (mapA boolToVal (mapA (fun v => !(isnanV v)) a))
          (scalarA (Val.num 0))) (Val.num 0) addV dims))
      (Wf_mapA _ (Wf_reduceArr _ _ _ _)) hom, hNRMget]
    rfl
  have hMSKs : (mapA leZeroV (mapA (fun v => subV v (Val.num ddof))
      (reduceArr (_where m (mapA boolToVal (mapA (fun v => !(isnanV v)) a))
        (scalarA (Val.num 0))) (Val.num 0) addV dims))).shape =
      removeDims a.shape dims := by
    show removeDims (broadcastShapes m.shape (broadcastShapes a.shape [])) dims =
      removeDims a.shape dims
    rw [hWsh]
  have hNRMs : (mapA (fun v => subV v (Val.num ddof))
      (reduceArr (_where m (mapA boolToVal (mapA (fun v => !(isnanV v)) a))
        (scalarA (Val.num 0))) (Val.num 0) addV dims)).shape =
      removeDims a.shape dims := hMSKs
  have hRESMs : (reduceArr (_where m (mapA squareV (_where (mapA isnanV a)
      (scalarA (Val.num 0)) (zipB subV a AM))) (scalarA (Val.num 0)))
      (Val.num 0) addV dims).shape = removeDims a.shape dims := by
    show removeDims (broadcastShapes m.shape (broadcastShapes (mapA squareV
      (_where (mapA isnanV a) (scalarA (Val.num 0)) (zipB subV a AM))).shape []))
      dims = removeDims a.shape dims
    rw [bshape_nil_right, hCns, hm, bshape_self]
  have hres := where_overwrite_get
    (mapA leZeroV (mapA (fun v => subV v (Val.num ddof))
      (reduceArr (_where m (mapA boolToVal (mapA (fun v => !(isnanV v)) a))
        (scalarA (Val.num 0))) (Val.num 0) addV dims)))
    Val.nan
    (reduceArr (_where m (mapA squareV (_where (mapA isnanV a) (scalarA (Val.num 0))
      (zipB subV a AM))) (scalarA (Val.num 0))) (Val.num 0) addV dims)
    (removeDims a.shape dims) hMSKs hRESMs ho
  have hdiv := where_overwrite_get
    (mapA leZeroV (mapA (fun v => subV v (Val.num ddof))
      (reduceArr (_where m (mapA boolToVal (mapA (fun v => !(isnanV v)) a))
        (scalarA (Val.num 0))) (Val.num 0) addV dims)))
    (Val.num 1)
    (mapA (fun v => subV v (Val.num ddof))
      (reduceArr (_where m (mapA boolToVal (mapA (fun v => !(isnanV v)) a))
        (scalarA (Val.num 0))) (Val.num 0) addV dims))
    (removeDims a.shape dims) hMSKs hNRMs ho
  have hresS : (_where (mapA leZeroV (mapA (fun v => subV v (Val.num ddof))
      (reduceArr (_where m (mapA boolToVal (mapA (fun v => !(isnanV v)) a))
        (scalarA (Val.num 0))) (Val.num 0) addV dims)))
      (scalarA Val.nan)
      (reduceArr (_where m (mapA squareV (_where (mapA isnanV a) (scalarA (Val.num 0))
        (zipB subV a AM))) (scalarA (Val.num 0))) (Val.num 0) addV dims)).shape =
      removeDims a.shape dims := by
    rw [where_shape, scalarA_shape, bshape_nil_left, hMSKs, hRESMs, bshape_self]
  have hdivS : (_where (mapA leZeroV (mapA (fun v => subV v (Val.num ddof))
      (reduceArr (_where m (mapA boolToVal (mapA (fun v => !(isnanV v)) a))
        (scalarA (Val.num 0))) (Val.num 0) addV dims)))
      (scalarA (Val.num 1))
      (mapA (fun v => subV v (Val.num ddof))
        (reduceArr (_where m (mapA boolToVal (mapA (fun v => !(isnanV v)) a))
          (scalarA (Val.num 0))) (Val.num 0) addV dims))).shape =
      removeDims a.shape dims := by
    rw [where_shape, scalarA_shape, bshape_nil_left, hMSKs, hNRMs, bshape_self]
  have hgetRES := masked_reduce_get m
    (mapA squareV (_where (mapA isnanV a) (scalarA (Val.num 0)) (zipB subV a AM)))
    (Val.num 0) (Val.num 0) addV a.shape dims hm hCns ho
  rw [zipB_same_shape_get divV _ _ (removeDims a.shape dims) hresS hdivS ho]
  rw [hres, hdiv, hMSKget, hgetRES, hNRMget]
  by_cases hle : (((allIndices (selectDims a.shape dims)).countP (fun ridx =>
      m.get (mergeIdx dims a.shape.length oidx ridx) &&
        !(isnanV (a.get (mergeIdx dims a.shape.length oidx ridx)))) :
      Nat) : Rat) - ddof ≤ 0
  · rw [if_pos (decide_eq_true hle), if_pos (decide_eq_true hle), if_pos hle]
    rfl
  · rw [if_neg (by simp [hle]), if_neg (by simp [hle]), if_neg hle]

/-- Evaluation of `nanvar` under a same-shape mask: success, with the masked
non-NaN-count normalizer semantics, at the concrete masked nan-aware mean. -/
theorem nanvar_masked_eval (a : NDArray Val) (m : NDArray Bool)
    (axis : Option (List Int)) (ddof : Rat) (dims : List Nat) (hwf : Wf a)
    (hm : m.shape = a.shape)
    (h : _reduction_dims a.shape.length axis = .ok dims) :
    ∃ a_mean centered r,
      nanmean a axis true (some m) = .ok a_mean ∧
      centered = mapA squareV (_where (mapA isnanV a) (scalarA (Val.num 0))
        (zipB subV a a_mean)) ∧
      nanvar a axis ddof false (some m) = .ok r ∧
      ∀ oidx ∈ allIndices (removeDims a.shape dims),
        r.get oidx =
          if (((allIndices (selectDims a.shape dims)).countP (fun ridx =>
              m.get (mergeIdx dims a.shape.length oidx ridx) &&
                !(isnanV (a.get (mergeIdx dims a.shape.length oidx ridx)))) :
              Nat) : Rat) - ddof ≤ 0 then
            Val.nan
          else
            divV (((allIndices (selectDims a.shape dims)).map (fun ridx =>
                if m.get (mergeIdx dims a.shape.length oidx ridx)
                then centered.get (mergeIdx dims a.shape.length oidx ridx)
                else Val.num 0)).foldl addV (Val.num 0))
              (Val.num ((((allIndices (selectDims a.shape dims)).countP (fun ridx =>
                m.get (mergeIdx dims a.shape.length oidx ridx) &&
                  !(isnanV (a.get (mergeIdx dims a.shape.length oidx ridx)))) :
                Nat) : Rat) - ddof)) := by
  have hA0 : _where (mapA isnanV a) (scalarA (Val.num 0)) a =
      mapA (fun w => if isnanV w then Val.num 0 else w) a :=
    where_isnan_eq_mapA a (Val.num 0) hwf
  have hns : nansum a axis true none (some m) =
      .ok (expandDims (reduceArr (_where m
        (mapA (fun w => if isnanV w then Val.num 0 else w) a) (scalarA (Val.num 0)))
        (Val.num 0) addV dims) dims) := by
    show _nan_reduction a _reduce_sum (Val.num 0) false axis true none (some m) = _
    rw [_nan_reduction_no_flag, hA0]
    exact (_reduce_sum_masked (mapA (fun w => if isnanV w then Val.num 0 else w) a)
      m axis true h).trans rfl
  have hcntk : _reduce_sum (mapA boolToVal (mapA (fun v => !(isnanV v)) a)) axis
      true none (some m) =
      .ok (expandDims (reduceArr (_where m
        (mapA boolToVal (mapA (fun v => !(isnanV v)) a)) (scalarA (Val.num 0)))
        (Val.num 0) addV dims) dims) :=
    (_reduce_sum_masked (mapA boolToVal (mapA (fun v => !(isnanV v)) a)) m axis
      true h).trans rfl
  have hMn : nanmean a axis true (some m) =
      .ok (zipB divV
        (expandDims (reduceArr (_where m
          (mapA (fun w => if isnanV w then Val.num 0 else w) a) (scalarA (Val.num 0)))
          (Val.num 0) addV dims) dims)
        (expandDims (reduceArr (_where m
          (mapA boolToVal (mapA (fun v => !(isnanV v)) a)) (scalarA (Val.num 0)))
          (Val.num 0) addV dims) dims)) := by
    show (match _reduce_sum (mapA boolToVal (mapA (fun v => !(isnanV v)) a)) axis
            true none (some m) with
          | .error e => .error e
          | .ok normalizer =>
            match nansum a axis true none (some m) with
            | .error e => .error e
            | .ok ns => .ok (zipB divV ns normalizer) : Except String (NDArray Val)) = _
    rw [hcntk, hns]
  have hAMs : (zipB divV
      (expandDims (reduceArr (_where m
        (mapA (fun w => if isnanV w then Val.num 0 else w) a) (scalarA (Val.num 0)))
        (Val.num 0) addV dims) dims)
      (expandDims (reduceArr (_where m
        (mapA boolToVal (mapA (fun v => !(isnanV v)) a)) (scalarA (Val.num 0)))
        (Val.num 0) addV dims) dims)).shape =
      insertOnes (removeDims a.shape dims) dims := by
    show broadcastShapes
      (insertOnes (removeDims (broadcastShapes m.shape (broadcastShapes a.shape []))
        dims) dims)
      (insertOnes (removeDims (broadcastShapes m.shape (broadcastShapes a.shape []))
        dims) dims) =
      insertOnes (removeDims a.shape dims) dims
    rw [bshape_nil_right, hm, bshape_self, bshape_self]
  obtain ⟨c, r, h1, h2, h3⟩ := nanvar_masked_eval_core a m axis ddof dims hwf hm h
    _ hMn hAMs
  exact ⟨_, c, r, hMn, h1, h2, h3⟩

/-- C6: neither `var` nor `nanvar` fails on non-positive effective degrees of
freedom, in the unmasked and the masked (`where`) form alike: all four calls
succeed, and on each output cell whose effective normalizer (the static
element count for unmasked `var`, the mask count for masked `var`, the
per-slice non-NaN count for unmasked `nanvar`, the mask-included non-NaN
count for masked `nanvar` — minus the correction/ddof) is not strictly
positive the result is NaN, while on each cell with a positive normalizer it
is the (mask-restricted) sum of the squared centered values of the slice
divided by that normalizer. -/
theorem claim_C6_var_nanvar (a : NDArray Val) (m : NDArray Bool)
    (axis : Option (List Int)) (corr ddof : Rat) (dims : List Nat) (N : Rat)
    (hwf : Wf a) (hm : m.shape = a.shape)
    (h : _reduction_dims a.shape.length axis = .ok dims)
    (hN : staticNormalizer a.shape axis = .ok (scalarA (Val.num N))) :
    (∃ a_mean centered r,
      _mean a axis true none = .ok a_mean ∧
      centered = mapA squareV (zipB subV a a_mean) ∧
      _var a axis corr false none = .ok r ∧
      ∀ oidx ∈ allIndices (removeDims a.shape dims),
        r.get oidx =
          if (0 : Rat) < N - corr then
            divV ((sliceList centered dims oidx).foldl addV (Val.num 0))
              (Val.num (N - corr))
          else Val.nan) ∧
    (∃ a_mean centered r,
      nanmean a axis true none = .ok a_mean ∧
      centered = mapA squareV (_where (mapA isnanV a) (scalarA (Val.num 0))
        (zipB subV a a_mean)) ∧
      nanvar a axis ddof false none = .ok r ∧
      ∀ oidx ∈ allIndices (removeDims a.shape dims),
        r.get oidx =
          if (((sliceList a dims oidx).countP (fun v => !(isnanV v)) : Nat) : Rat)
              - ddof ≤ 0 then
            Val.nan
          else
            divV ((sliceList centered dims oidx).foldl addV (Val.num 0))
              (Val.num ((((sliceList a dims oidx).countP
                (fun v => !(isnanV v)) : Nat) : Rat) - ddof))) ∧
    (∃ a_mean centered r,
      _mean a axis true (some m) = .ok a_mean ∧
      centered = mapA squareV (zipB subV a a_mean) ∧
      _var a axis corr false (some m) = .ok r ∧
      ∀ oidx ∈ allIndices (removeDims a.shape dims),
        r.get oidx =
          if (0 : Rat) < (((allIndices (selectDims a.shape dims)).countP (fun ridx =>
              m.get (mergeIdx dims a.shape.length oidx ridx)) : Nat) : Rat) - corr then
            divV (((allIndices (selectDims a.shape dims)).map (fun ridx =>
                if m.get (mergeIdx dims a.shape.length oidx ridx)
                then centered.get (mergeIdx dims a.shape.length oidx ridx)
                else Val.num 0)).foldl addV (Val.num 0))
              (Val.num ((((allIndices (selectDims a.shape dims)).countP (fun ridx =>
                m.get (mergeIdx dims a.shape.length oidx ridx)) : Nat) : Rat) - corr))
          else Val.nan) ∧
    (∃ a_mean centered r,
      nanmean a axis true (some m) = .ok a_mean ∧
      centered = mapA squareV (_where (mapA isnanV a) (scalarA (Val.num 0))
        (zipB subV a a_mean)) ∧
      nanvar a axis ddof false (some m) = .ok r ∧
      ∀ oidx ∈ allIndices (removeDims a.shape dims),
        r.get oidx =
          if (((allIndices (selectDims a.shape dims)).countP (fun ridx =>
              m.get (mergeIdx dims a.shape.length oidx ridx) &&
                !(isnanV (a.get (mergeIdx dims a.shape.length oidx ridx)))) :
              Nat) : Rat) - ddof ≤ 0 then
            Val.nan
          else
            divV (((allIndices (selectDims a.shape dims)).map (fun ridx =>
                if m.get (mergeIdx dims a.shape.length oidx ridx)
                then centered.get (mergeIdx dims a.shape.length oidx ridx)
                else Val.num 0)).foldl addV (Val.num 0))
              (Val.num ((((allIndices (selectDims a.shape dims)).countP (fun ridx =>
                m.get (mergeIdx dims a.shape.length oidx ridx) &&
                  !(isnanV (a.get (mergeIdx dims a.shape.length oidx ridx)))) :
                Nat) : Rat) - ddof))) :=
  ⟨var_eval a axis corr dims N h hN,
   nanvar_eval a axis ddof dims hwf h,
   var_masked_eval a m axis corr dims hm h,
   nanvar_masked_eval a m axis ddof dims hwf hm h⟩

/-- C10: on bool input, cumsum/cumprod/nancumsum/nancumprod all accumulate in
and return the default signed integer dtype when no dtype is given; the output
is bool only when `dtype=bool` is explicitly requested, in which case the
integer accumulation is cast back to bool at the end; any other explicit dtype
passes through. -/
theorem claim_C10_bool_cumulative_dtype (a : CArr) (ha : a.dtype = DType.bool)
    (ax : Int) (axN : Nat) (hax : canonicalizeAxis ax a.arr.shape.length = .ok axN) :
    (∃ ri rb, cumsum a (some ax) none = .ok ri ∧
      cumsum a (some ax) (some DType.bool) = .ok rb ∧
      ri.dtype = int_ ∧ rb.dtype = DType.bool ∧ rb = convert ri DType.bool ∧
      (∀ dt r, cumsum a (some ax) (some dt) = .ok r →
        (r.dtype = DType.bool ↔ dt = DType.bool))) ∧
    (∃ ri rb, cumprod a (some ax) none = .ok ri ∧
      cumprod a (some ax) (some DType.bool) = .ok rb ∧
      ri.dtype = int_ ∧ rb.dtype = DType.bool ∧ rb = convert ri DType.bool ∧
      (∀ dt r, cumprod a (some ax) (some dt) = .ok r →
        (r.dtype = DType.bool ↔ dt = DType.bool))) ∧
    (∃ ri rb, nancumsum a (some ax) none = .ok ri ∧
      nancumsum a (some ax) (some DType.bool) = .ok rb ∧
      ri.dtype = int_ ∧ rb.dtype = DType.bool ∧ rb = convert ri DType.bool ∧
      (∀ dt r, nancumsum a (some ax) (some dt) = .ok r →
        (r.dtype = DType.bool ↔ dt = DType.bool))) ∧
    (∃ ri rb, nancumprod a (some ax) none = .ok ri ∧
      nancumprod a (some ax) (some DType.bool) = .ok rb ∧
      ri.dtype = int_ ∧ rb.dtype = DType.bool ∧ rb = convert ri DType.bool ∧
      (∀ dt r, nancumprod a (some ax) (some dt) = .ok r →
        (r.dtype = DType.bool ↔ dt = DType.bool))) :=
  ⟨cumulative_bool_core addV (Val.num 0) false (Val.num 0) a ha ax axN hax,
   cumulative_bool_core mulV (Val.num 1) false (Val.num 0) a ha ax axN hax,
   cumulative_bool_core addV (Val.num 0) true (Val.num 0) a ha ax axN hax,
   cumulative_bool_core mulV (Val.num 1) true (Val.num 1) a ha ax axN hax⟩

/-! ### Concrete witnesses for the claim theorems -/

theorem claim_C1_initial_protocol_witness :
    applyR RKind.sum ⟨[2], [Val.num 1, Val.num 2]⟩ none false
      (some (scalarA (Val.num 5))) none =
      .ok (mapA (addV (Val.num 5))
        (reduceArr ⟨[2], [Val.num 1, Val.num 2]⟩ (Val.num 0) addV [0])) :=
  (claim_C1_initial_protocol RKind.sum ⟨[2], [Val.num 1, Val.num 2]⟩ none false
    (scalarA (Val.num 5)) [0] rfl).2.1 rfl

theorem claim_C3_zero_size_witness :
    _reduce_max ⟨[0], ([] : List Val)⟩ none false none none =
      .error (zeroSizeMsg "max") ∧
    _reduce_min ⟨[0], ([] : List Val)⟩ none false none none =
      .error (zeroSizeMsg "min") :=
  (claim_C3_zero_size ⟨[0], []⟩ none false [0] rfl).1 ⟨0, by decide, rfl⟩

theorem claim_C4_masked_sum_witness :
    _reduce_sum ⟨[2], [Val.num 1, Val.num 2]⟩ none false none
      (some ⟨[2], [true, false]⟩) =
      _reduce_sum (_where ⟨[2], [true, false]⟩ ⟨[2], [Val.num 1, Val.num 2]⟩
        (scalarA (Val.num 0))) none false none none :=
  claim_C4_masked_sum ⟨[2], [Val.num 1, Val.num 2]⟩ ⟨[2], [true, false]⟩ none
    false rfl

theorem claim_C5_nan_semantics_witness :
    ∃ r, nanmin ⟨[1], [Val.nan]⟩ none false none none = .ok r ∧
      r.get [] = Val.nan :=
  (((claim_C5_nan_semantics ⟨[1], [Val.nan]⟩ none false [0] [] rfl rfl
    (by decide) (by decide)).2.2.1 (by decide)).2.2.1)

theorem claim_C6_var_nanvar_witness :
    ∃ a_mean centered r,
      _mean ⟨[1], [Val.num 4]⟩ none true none = .ok a_mean ∧
      centered = mapA squareV (zipB subV ⟨[1], [Val.num 4]⟩ a_mean) ∧
      _var ⟨[1], [Val.num 4]⟩ none 0 false none = .ok r ∧
      ∀ oidx ∈ allIndices (removeDims [1] [0]),
        r.get oidx =
          if (0 : Rat) < ((1 : Nat) : Rat) - 0 then
            divV ((sliceList centered [0] oidx).foldl addV (Val.num 0))
              (Val.num (((1 : Nat) : Rat) - 0))
          else Val.nan :=
  (claim_C6_var_nanvar ⟨[1], [Val.num 4]⟩ ⟨[1], [true]⟩ none 0 0 [0]
    ((1 : Nat) : Rat) rfl rfl rfl rfl).1

theorem claim_C7_nearest_tie_witness :
    highWeightQ [Val.num 1, Val.num 2] (1 / 2) = 1 / 2 ∧
    _quantile1 [Val.num 1, Val.num 2] (1 / 2) QMethod.nearest =
      lowOrderStat [Val.num 1, Val.num 2] (1 / 2) :=
  ⟨by norm_num [highWeightQ, fracIndex],
   (claim_C7_nearest_tie [Val.num 1, Val.num 2] (1 / 2)).2.1
     (by norm_num [highWeightQ, fracIndex])⟩

theorem claim_C8_cumulative_sum_witness :
    ∃ r c, cumulative_sum ⟨DType.float64, ⟨[1], [Val.num 3]⟩⟩ none none true =
        .ok r ∧
      cumsum ⟨DType.float64, ⟨[1], [Val.num 3]⟩⟩ none none = .ok c ∧
      r.arr.data = Val.num 0 :: c.arr.data :=
  claim_C8_cumulative_sum.1 ⟨DType.float64, ⟨[1], [Val.num 3]⟩⟩ rfl (Or.inl rfl)

/-- C8 counterexample: on narrow-integer input the original unconditional
equality fails in the program — `cumsum` accumulates in the unpromoted int8
dtype and wraps `127 + 1` to `-128`, while `cumulative_sum` promotes to the
default signed int and yields `128`, so the tail of the `include_initial`
result differs from `cumsum`. -/
theorem claim_C8_counterexample :
    cumulative_sum ⟨DType.int8, ⟨[2], [Val.num 127, Val.num 1]⟩⟩ none none true =
      .ok ⟨DType.int64, ⟨[3], [Val.num 0, Val.num 127, Val.num 128]⟩⟩ ∧
    cumsum ⟨DType.int8, ⟨[2], [Val.num 127, Val.num 1]⟩⟩ none none =
      .ok ⟨DType.int8, ⟨[2], [Val.num 127, Val.num (-128)]⟩⟩ ∧
    ([Val.num 0, Val.num 127, Val.num 128] ≠
      Val.num 0 :: [Val.num 127, Val.num (-128)]) := by
  have hadd1 : addV (Val.num 0) (Val.num 127) = Val.num 127 := addV_zero_left _
  have hadd2 : addV (Val.num 127) (Val.num 1) = Val.num 128 := by norm_num [addV]
  refine ⟨?_, ?_, by decide⟩
  · have h0 : cumulative_sum ⟨DType.int8, ⟨[2], [Val.num 127, Val.num 1]⟩⟩
        none none true =
        .ok ⟨DType.int64, concatAxis ⟨[1], [Val.num 0]⟩
          (cumRed (fun acc v => wrapVal DType.int64 (addV acc v)) (Val.num 0)
            ⟨[2], [Val.num 127, Val.num 1]⟩ 0) 0⟩ := rfl
    rw [h0]
    refine congrArg Except.ok (congrArg (CArr.mk DType.int64) (ndext rfl ?_))
    show (concatAxis ⟨[1], [Val.num 0]⟩
      (cumRed (fun acc v => wrapVal DType.int64 (addV acc v)) (Val.num 0)
        ⟨[2], [Val.num 127, Val.num 1]⟩ 0) 0).data =
      [Val.num 0, Val.num 127, Val.num 128]
    rw [concatAxis_one_cons (Val.num 0)
      (cumRed (fun acc v => wrapVal DType.int64 (addV acc v)) (Val.num 0)
        ⟨[2], [Val.num 127, Val.num 1]⟩ 0) 2 rfl (by rfl)]
    show Val.num 0 :: [wrapVal DType.int64 (addV (Val.num 0) (Val.num 127)),
      wrapVal DType.int64 (addV (wrapVal DType.int64 (addV (Val.num 0) (Val.num 127)))
        (Val.num 1))] = _
    rw [hadd1, show wrapVal DType.int64 (Val.num 127) = Val.num 127 from by decide,
      hadd2, show wrapVal DType.int64 (Val.num 128) = Val.num 128 from by decide]
  · have h0 : cumsum ⟨DType.int8, ⟨[2], [Val.num 127, Val.num 1]⟩⟩ none none =
        .ok ⟨DType.int8,
          cumRed (fun acc v => wrapVal DType.int8 (addV acc v)) (Val.num 0)
            ⟨[2], [Val.num 127, Val.num 1]⟩ 0⟩ := rfl
    rw [h0]
    refine congrArg Except.ok (congrArg (CArr.mk DType.int8) (ndext rfl ?_))
    show [wrapVal DType.int8 (addV (Val.num 0) (Val.num 127)),
      wrapVal DType.int8 (addV (wrapVal DType.int8 (addV (Val.num 0) (Val.num 127)))
        (Val.num 1))] = [Val.num 127, Val.num (-128)]
    rw [hadd1, show wrapVal DType.int8 (Val.num 127) = Val.num 127 from by decide,
      hadd2, show wrapVal DType.int8 (Val.num 128) = Val.num (-128) from by decide]

theorem claim_C9_initial_suppresses_nan_witness :
    ∃ r, nanmin ⟨[1], [Val.nan]⟩ none false (some (scalarA (Val.num 7))) none =
        .ok r ∧
      r.get [] = Val.num 7 :=
  (claim_C9_initial_suppresses_nan ⟨[1], [Val.nan]⟩ (scalarA (Val.num 7)) none
    false none (Val.num 7) [0] [] rfl rfl (by decide) (by decide)).2.2.1

theorem claim_C10_bool_cumulative_dtype_witness :
    ∃ ri rb, cumsum ⟨DType.bool, ⟨[1], [Val.num 1]⟩⟩ (some 0) none = .ok ri ∧
      cumsum ⟨DType.bool, ⟨[1], [Val.num 1]⟩⟩ (some 0) (some DType.bool) =
        .ok rb ∧
      ri.dtype = int_ ∧ rb.dtype = DType.bool := by
  obtain ⟨ri, rb, h1, h2, h3, h4, _⟩ :=
    (claim_C10_bool_cumulative_dtype ⟨DType.bool, ⟨[1], [Val.num 1]⟩⟩ rfl 0 0
      rfl).1
  exact ⟨ri, rb, h1, h2, h3, h4⟩

end JaxRed
